import Mathlib

/-!
Polyphonic synthesizer: a shallow embedding of `poly.c` / `poly.h`.

The engine state of `poly.c` (the voice array, the two channel masks and the
master sample clock) is an explicit record that every operation takes and
returns.  Machine integers are `Nat` / `Int` with the C conversions written
out.  An operation returns `none` where the C program has no defined
behaviour: an access outside the voice array, a division by zero, a shift by
32 bits or more, a failing `assert`.

The build-time constants that `poly.h` leaves to the application
(`poly_freq`, `poly_freq_max`), the platform's `RAND_MAX` and the width of
`int` are collected in `poly_cfg`; the value returned by each call of
`rand()` is an argument.
-/

namespace Poly

/-! ## Integer conversions of C -/

def UINT8_MAX : Nat := 255
def UINT16_MAX : Nat := 65535
def INT16_MAX : Int := 32767
def INT16_MIN : Int := -32768

/-- Conversion of an integer to `uint8_t`. -/
def to_uint8 (x : Int) : Nat := (x % 256).toNat

/-- Conversion of an integer to `uint16_t`. -/
def to_uint16 (x : Int) : Nat := (x % 65536).toNat

/-- Conversion of an integer to `int8_t` (two's complement). -/
def to_int8 (x : Int) : Int := (x + 128) % 256 - 128

/-- Conversion of an integer to `int16_t` (two's complement). -/
def to_int16 (x : Int) : Int := (x + 32768) % 65536 - 32768

/-! ## Error numbers of `errno.h` (values of the Linux host build) -/

def EINVAL : Int := 22
def ERANGE : Int := 34
def EINPROGRESS : Int := 115

/-! ## Data model (`poly.h`) -/

/-- Polyphonic event, `struct poly_evt_t`: two `uint16_t` words. -/
structure poly_evt_t where
  flags : Nat
  value : Nat
deriving DecidableEq

def POLY_EVT_TYPE_BIT : Nat := 12
def POLY_EVT_TYPE_MASK : Nat := 0x0f <<< POLY_EVT_TYPE_BIT
def POLY_EVT_TYPE_END : Nat := 0x00 <<< POLY_EVT_TYPE_BIT
def POLY_EVT_TYPE_TIME : Nat := 0x01 <<< POLY_EVT_TYPE_BIT
def POLY_EVT_TYPE_ENABLE : Nat := 0x02 <<< POLY_EVT_TYPE_BIT
def POLY_EVT_TYPE_MUTE : Nat := 0x03 <<< POLY_EVT_TYPE_BIT
def POLY_EVT_TYPE_IFREQ : Nat := 0x04 <<< POLY_EVT_TYPE_BIT
def POLY_EVT_TYPE_DFREQ : Nat := 0x05 <<< POLY_EVT_TYPE_BIT
def POLY_EVT_TYPE_PMOD : Nat := 0x06 <<< POLY_EVT_TYPE_BIT
def POLY_EVT_TYPE_IAMP : Nat := 0x08 <<< POLY_EVT_TYPE_BIT
def POLY_EVT_TYPE_DAMP : Nat := 0x09 <<< POLY_EVT_TYPE_BIT
def POLY_EVT_TYPE_AMOD : Nat := 0x0a <<< POLY_EVT_TYPE_BIT
def POLY_EVT_TYPE_ASCALE : Nat := 0x0b <<< POLY_EVT_TYPE_BIT
def POLY_EVT_TYPE_DSCALE : Nat := 0x0f <<< POLY_EVT_TYPE_BIT
def POLY_CH_BIT : Nat := 8

/-- Voice state machine, `struct poly_voice_t`.  `sample`, `dfreq` are
`int16_t`, `damp` is `int8_t`, `time`, `freq`, `dscale` are `uint16_t`, the
other fields are `uint8_t`. -/
structure poly_voice_t where
  sample : Int
  time : Nat
  freq : Nat
  dfreq : Int
  dscale : Nat
  amp : Nat
  damp : Int
  ascale : Nat
  pmod : Nat
  amod : Nat
  flags : Nat
deriving DecidableEq

/-- The all-zero voice that `memset(.., 0, ..)` leaves behind. -/
def voice_zero : poly_voice_t :=
  { sample := 0, time := 0, freq := 0, dfreq := 0, dscale := 0, amp := 0,
    damp := 0, ascale := 0, pmod := 0, amod := 0, flags := 0 }

/-- The global variables of `poly.c`: the voice array `poly_voice`, the
enabled and muted channel masks and the master sample clock.  The array is
declared with `poly_num_channels` elements, so its length is the channel
count. -/
structure poly_state where
  poly_voice : List poly_voice_t
  _poly_enable : Nat
  _poly_mute : Nat
  poly_remain : Nat
deriving DecidableEq

/-- Number of voice channels. -/
def poly_num_channels (s : poly_state) : Nat := s.poly_voice.length

/-- Constants fixed when the program is built: the sample rate `poly_freq`,
the Nyquist bound `poly_freq_max`, the C library's `RAND_MAX` and the number
of bits of `int` (32 on the host, 16 on AVR). -/
structure poly_cfg where
  poly_freq : Nat
  poly_freq_max : Nat
  RAND_MAX : Nat
  int_bits : Nat
deriving DecidableEq

/-- Host configuration of `pctest.c`. -/
def pctest_cfg : poly_cfg :=
  { poly_freq := 32000, poly_freq_max := 16000, RAND_MAX := 2147483647, int_bits := 32 }

/-! ## `poly_reset` and `poly_load` -/

/-- Function `poly_reset`: clears the voice array and the sample clock. -/
def poly_reset (s : poly_state) : poly_state :=
  { s with
    poly_voice := List.replicate (poly_num_channels s) voice_zero
    poly_remain := 0 }

/-- A store through `voice = &poly_voice[ch]`, followed by `return 0`.  The
store is outside the array when `ch` is not below the channel count. -/
def voice_store (s : poly_state) (ch : Nat) (f : poly_voice_t → poly_voice_t) :
    Option (Int × poly_state) :=
  match s.poly_voice[ch]? with
  | some voice => some (0, { s with poly_voice := s.poly_voice.set ch (f voice) })
  | none => none

/-- The local `type` of `poly_load`: `(event->flags) & POLY_EVT_TYPE_MASK`. -/
def evt_type (event : poly_evt_t) : Nat := event.flags &&& POLY_EVT_TYPE_MASK

/-- The channel field of an event: `(event->flags >> POLY_CH_BIT) & 0x0f`. -/
def evt_channel (event : poly_evt_t) : Nat := (event.flags >>> POLY_CH_BIT) &&& 0x0f

/-- Function `poly_load`: the returned pair is the `int` result and the state
afterwards. -/
def poly_load (s : poly_state) (event : poly_evt_t) : Option (Int × poly_state) :=
  let type := evt_type event
  if type = POLY_EVT_TYPE_TIME then
    some (0, { s with poly_remain := event.value })
  else if type = POLY_EVT_TYPE_END then
    some (0, poly_reset s)
  else if s.poly_remain ≠ 0 then
    some (-EINPROGRESS, s)
  else if type = POLY_EVT_TYPE_ENABLE then
    some (0, { s with _poly_enable := event.value })
  else if type = POLY_EVT_TYPE_MUTE then
    some (0, { s with _poly_mute := event.value })
  else
    let ch := evt_channel event
    if type = POLY_EVT_TYPE_IFREQ then
      voice_store s ch (fun voice => { voice with freq := event.value, time := 0 })
    else if type = POLY_EVT_TYPE_DFREQ then
      voice_store s ch (fun voice => { voice with dfreq := to_int16 event.value })
    else if type = POLY_EVT_TYPE_PMOD then
      if event.value = UINT16_MAX then
        voice_store s ch (fun voice => { voice with pmod := 0 })
      else
        voice_store s ch (fun voice => { voice with pmod := to_uint8 ((event.value ||| 0x80 : Nat) : Int) })
    else if type = POLY_EVT_TYPE_IAMP then
      voice_store s ch (fun voice => { voice with amp := to_uint8 event.value })
    else if type = POLY_EVT_TYPE_DAMP then
      voice_store s ch (fun voice => { voice with damp := to_int8 event.value })
    else if type = POLY_EVT_TYPE_AMOD then
      if event.value = UINT16_MAX then
        voice_store s ch (fun voice => { voice with amod := 0 })
      else
        voice_store s ch (fun voice => { voice with amod := to_uint8 ((event.value ||| 0x80 : Nat) : Int) })
    else if type = POLY_EVT_TYPE_ASCALE then
      if event.value > 31 then
        some (-ERANGE, s)
      else
        voice_store s ch (fun voice => { voice with ascale := to_uint8 event.value })
    else if type = POLY_EVT_TYPE_DSCALE then
      voice_store s ch (fun voice => { voice with dscale := event.value })
    else
      some (-EINVAL, s)

/-! ## `poly_sine` -/

def POLY_SINE_SZ : Nat := 360

/-- First quadrant of the sinusoid, `_poly_sine[POLY_SINE_SZ]`. -/
def _poly_sine : List Nat := [
  0x00, 0x01, 0x02, 0x03, 0x04, 0x05, 0x06, 0x07, 0x08, 0x0A,
  0x0B, 0x0C, 0x0D, 0x0E, 0x0F, 0x10, 0x11, 0x12, 0x14, 0x15,
  0x16, 0x17, 0x18, 0x19, 0x1A, 0x1B, 0x1C, 0x1D, 0x1F, 0x20,
  0x21, 0x22, 0x23, 0x24, 0x25, 0x26, 0x27, 0x28, 0x2A, 0x2B,
  0x2C, 0x2D, 0x2E, 0x2F, 0x30, 0x31, 0x32, 0x33, 0x35, 0x36,
  0x37, 0x38, 0x39, 0x3A, 0x3B, 0x3C, 0x3D, 0x3E, 0x3F, 0x40,
  0x41, 0x43, 0x44, 0x45, 0x46, 0x47, 0x48, 0x49, 0x4A, 0x4B,
  0x4C, 0x4D, 0x4E, 0x4F, 0x50, 0x51, 0x53, 0x54, 0x55, 0x56,
  0x57, 0x58, 0x59, 0x5A, 0x5B, 0x5C, 0x5D, 0x5E, 0x5F, 0x60,
  0x61, 0x62, 0x63, 0x64, 0x65, 0x66, 0x67, 0x68, 0x69, 0x6A,
  0x6B, 0x6C, 0x6D, 0x6E, 0x6F, 0x70, 0x71, 0x72, 0x73, 0x74,
  0x75, 0x76, 0x77, 0x78, 0x79, 0x7A, 0x7B, 0x7C, 0x7D, 0x7E,
  0x7F, 0x80, 0x81, 0x82, 0x83, 0x84, 0x85, 0x86, 0x87, 0x88,
  0x89, 0x89, 0x8A, 0x8B, 0x8C, 0x8D, 0x8E, 0x8F, 0x90, 0x91,
  0x92, 0x93, 0x94, 0x94, 0x95, 0x96, 0x97, 0x98, 0x99, 0x9A,
  0x9B, 0x9C, 0x9C, 0x9D, 0x9E, 0x9F, 0xA0, 0xA1, 0xA2, 0xA3,
  0xA3, 0xA4, 0xA5, 0xA6, 0xA7, 0xA8, 0xA8, 0xA9, 0xAA, 0xAB,
  0xAC, 0xAD, 0xAD, 0xAE, 0xAF, 0xB0, 0xB1, 0xB1, 0xB2, 0xB3,
  0xB4, 0xB5, 0xB5, 0xB6, 0xB7, 0xB8, 0xB8, 0xB9, 0xBA, 0xBB,
  0xBC, 0xBC, 0xBD, 0xBE, 0xBE, 0xBF, 0xC0, 0xC1, 0xC1, 0xC2,
  0xC3, 0xC4, 0xC4, 0xC5, 0xC6, 0xC6, 0xC7, 0xC8, 0xC8, 0xC9,
  0xCA, 0xCA, 0xCB, 0xCC, 0xCC, 0xCD, 0xCE, 0xCE, 0xCF, 0xD0,
  0xD0, 0xD1, 0xD2, 0xD2, 0xD3, 0xD4, 0xD4, 0xD5, 0xD5, 0xD6,
  0xD7, 0xD7, 0xD8, 0xD8, 0xD9, 0xDA, 0xDA, 0xDB, 0xDB, 0xDC,
  0xDC, 0xDD, 0xDD, 0xDE, 0xDF, 0xDF, 0xE0, 0xE0, 0xE1, 0xE1,
  0xE2, 0xE2, 0xE3, 0xE3, 0xE4, 0xE4, 0xE5, 0xE5, 0xE6, 0xE6,
  0xE7, 0xE7, 0xE8, 0xE8, 0xE8, 0xE9, 0xE9, 0xEA, 0xEA, 0xEB,
  0xEB, 0xEC, 0xEC, 0xEC, 0xED, 0xED, 0xEE, 0xEE, 0xEE, 0xEF,
  0xEF, 0xEF, 0xF0, 0xF0, 0xF1, 0xF1, 0xF1, 0xF2, 0xF2, 0xF2,
  0xF3, 0xF3, 0xF3, 0xF4, 0xF4, 0xF4, 0xF5, 0xF5, 0xF5, 0xF6,
  0xF6, 0xF6, 0xF6, 0xF7, 0xF7, 0xF7, 0xF7, 0xF8, 0xF8, 0xF8,
  0xF8, 0xF9, 0xF9, 0xF9, 0xF9, 0xFA, 0xFA, 0xFA, 0xFA, 0xFA,
  0xFB, 0xFB, 0xFB, 0xFB, 0xFB, 0xFC, 0xFC, 0xFC, 0xFC, 0xFC,
  0xFC, 0xFC, 0xFD, 0xFD, 0xFD, 0xFD, 0xFD, 0xFD, 0xFD, 0xFD,
  0xFE, 0xFE, 0xFE, 0xFE, 0xFE, 0xFE, 0xFE, 0xFE, 0xFE, 0xFE,
  0xFE, 0xFE, 0xFE, 0xFE, 0xFE, 0xFE, 0xFE, 0xFE, 0xFE, 0xFE
]

/-- Function `poly_sine`: the sinusoid at a fixed-point angle in quarter degrees.  The
argument is a `uint16_t`.  After the reduction the angle is below 1440, so
the two reflections stay within `uint16_t`.  The result is `none` when the
`assert` fails. -/
def poly_sine (angle : Nat) : Option Int :=
  let angle1 := angle % (POLY_SINE_SZ * 4)
  let amp : Int := if angle1 ≥ POLY_SINE_SZ * 2 then -1 else 1
  let angle2 := if angle1 ≥ POLY_SINE_SZ * 2 then POLY_SINE_SZ * 4 - angle1 - 1 else angle1
  let angle3 := if angle2 ≥ POLY_SINE_SZ then POLY_SINE_SZ * 2 - angle2 - 1 else angle2
  if angle3 < POLY_SINE_SZ then
    (_poly_sine[angle3]?).map (fun (b : Nat) => amp * (b : Int))
  else
    none

/-! ## `poly_compute` -/

/-- The product `(4*POLY_SINE_SZ) * voice->freq` of `poly_compute`, which C
forms in the type of `int` before the widening multiplication by
`(int64_t)voice->time`.  With a 32-bit `int` the product is exact (it is below
2^27); with a 16-bit `int` the `uint16_t` operand promotes to `unsigned int`
and the product is reduced modulo 2^16. -/
def angle_scale (cfg : poly_cfg) (freq : Nat) : Int :=
  if cfg.int_bits ≤ 16 then
    ((4 * POLY_SINE_SZ * freq % 65536 : Nat) : Int)
  else
    ((4 * POLY_SINE_SZ * freq : Nat) : Int)

/-- A modulation read, `if (src) acc += poly_voice[src & 0x0f].sample`: `src`
is the voice's `amod` or `pmod` register, `acc` the amplitude or angle the
sample of the source channel is added to. -/
def mod_read (poly_voice : List poly_voice_t) (src : Nat) (acc : Int) : Option Int :=
  if src ≠ 0 then
    (poly_voice[src &&& 0x0f]?).map (fun source => acc + source.sample)
  else
    some acc

/-- The test `voice->dscale && (!(voice->time % voice->dscale))`. -/
def ramp_due (voice : poly_voice_t) : Bool :=
  voice.dscale ≠ 0 && voice.time % voice.dscale = 0

/-- The tone branch of `poly_compute` (`voice->freq < UINT16_MAX`): the
`int64_t` angle in quarter degrees, divided by `poly_freq`, phase modulated,
reduced with the truncating `%` of C and handed to `poly_sine`, whose
parameter is a `uint16_t`. -/
def tone_sample (cfg : poly_cfg) (poly_voice : List poly_voice_t) (voice : poly_voice_t) :
    Option Int := do
  let angle0 : Int := angle_scale cfg voice.freq * (voice.time : Int)
  let angle1 : Int ←
    if cfg.poly_freq = 0 then none
    else some (Int.tdiv angle0 (cfg.poly_freq : Int))
  let angle2 : Int ← mod_read poly_voice voice.pmod angle1
  let angle3 : Int := Int.tmod angle2 ((4 * POLY_SINE_SZ : Nat) : Int)
  poly_sine (to_uint16 angle3)

/-- The noise branch of `poly_compute`: `(rand() / (RAND_MAX/512)) - 256`. -/
def noise_sample (cfg : poly_cfg) (rand : Nat) : Option Int :=
  if cfg.RAND_MAX / 512 = 0 then none
  else some (((rand / (cfg.RAND_MAX / 512) : Nat) : Int) - 256)

/-- The `int32_t sample` of `poly_compute` before clipping, for the effective
amplitude `amp`: the block `if (amp) { ... } else { sample = 0; }`. -/
def voice_sample (cfg : poly_cfg) (rand : Nat) (poly_voice : List poly_voice_t)
    (voice : poly_voice_t) (amp : Int) : Option Int :=
  if amp ≠ 0 then do
    let scaled : Int ←
      if voice.freq ≠ 0 then do
        let wave : Int ←
          if voice.freq < UINT16_MAX then tone_sample cfg poly_voice voice
          else noise_sample cfg rand
        pure (wave * amp)
      else
        -- DC
        pure amp
    if voice.ascale < 32 then pure (scaled >>> voice.ascale) else none
  else
    -- No signal
    pure 0

/-- Delta frequency adjustment: `freq += dfreq` in `int32_t`, clamped to
`[0, poly_freq_max]` and stored to the `uint16_t` field. -/
def ramp_freq (cfg : poly_cfg) (voice : poly_voice_t) : poly_voice_t :=
  if voice.dfreq ≠ 0 then
    let freq : Int := (voice.freq : Int) + voice.dfreq
    if freq < 0 then { voice with freq := 0 }
    else if freq > (cfg.poly_freq_max : Int) then
      { voice with freq := to_uint16 (cfg.poly_freq_max : Int) }
    else { voice with freq := to_uint16 freq }
  else voice

/-- Delta amplitude adjustment: `amp + damp` in `int32_t`; outside `[0,
UINT8_MAX]` the amplitude is set to the bound and `damp` to 0. -/
def ramp_amp (voice : poly_voice_t) : poly_voice_t :=
  if voice.damp ≠ 0 then
    let amp : Int := (voice.amp : Int) + voice.damp
    if amp < 0 then { voice with amp := 0, damp := 0 }
    else if amp > (UINT8_MAX : Int) then { voice with amp := UINT8_MAX, damp := 0 }
    else { voice with amp := to_uint8 amp }
  else voice

/-- The ramp block of `poly_compute`, run when `ramp_due`. -/
def voice_ramp (cfg : poly_cfg) (voice : poly_voice_t) : poly_voice_t :=
  if ramp_due voice then ramp_amp (ramp_freq cfg voice) else voice

/-- Clipping of the `int32_t` sample to `[INT16_MIN, INT16_MAX]`. -/
def clip_sample (sample : Int) : Int :=
  if sample > INT16_MAX then INT16_MAX
  else if sample < INT16_MIN then INT16_MIN
  else sample

/-- Function `poly_compute`: the output of a single voice.  `poly_voice` is the voice
array the modulation sources are read from, `voice` the element being
computed, `rand` the value the call of `rand()` returns.  The statements run
in the order of the source: amplitude modulation, the sample, the ramps,
clipping, the store of the sample, the time step.  All reads of other voices
come before the first store to `voice`.  The result is `none` where the
behaviour is undefined: a modulation source outside the array, `poly_freq`
zero, `RAND_MAX/512` zero, a shift by 32 or more, a failing `assert` of
`poly_sine`. -/
def poly_compute (cfg : poly_cfg) (rand : Nat) (poly_voice : List poly_voice_t)
    (voice : poly_voice_t) : Option poly_voice_t := do
  let amp : Int ← mod_read poly_voice voice.amod (voice.amp : Int)
  let sample : Int ← voice_sample cfg rand poly_voice voice amp
  let voice1 := voice_ramp cfg voice
  pure { voice1 with
    sample := clip_sample sample
    time := to_uint16 ((voice1.time : Int) + 1) }

/-! ## `poly_next` -/

/-- First half of the loop body of `poly_next`: `poly_compute` on channel
`vid` when its bit is set in the enabled mask, with the result stored back
into the array. -/
def compute_if_enabled (cfg : poly_cfg) (rand : Nat) (enable mask vid : Nat)
    (poly_voice : List poly_voice_t) : Option (List poly_voice_t) :=
  if enable &&& mask ≠ 0 then do
    let voice ← poly_voice[vid]?
    let voice1 ← poly_compute cfg rand poly_voice voice
    pure (poly_voice.set vid voice1)
  else
    pure poly_voice

/-- Second half of the loop body of `poly_next`: `sample +=
poly_voice[vid].sample` in `int16_t` when the channel's bit is clear in the
muted mask. -/
def tally_if_unmuted (mute mask vid : Nat) (sample : Int)
    (poly_voice : List poly_voice_t) : Option Int :=
  if mute &&& mask = 0 then
    (poly_voice[vid]?).map (fun voice => to_int16 (sample + voice.sample))
  else
    pure sample

/-- The loop `for (vid = 0; vid < poly_num_channels; vid++)` of `poly_next`.
`count` is the number of iterations left, `mask` the `uint16_t` channel bit,
`sample` the `int16_t` tally, `rand vid` the value `rand()` returns when
channel `vid` is computed. -/
def poly_next_loop (cfg : poly_cfg) (rand : Nat → Nat) (enable mute : Nat) :
    Nat → Nat → Nat → Int → List poly_voice_t → Option (Int × List poly_voice_t)
  | 0, _, _, sample, poly_voice => some (sample, poly_voice)
  | count + 1, vid, mask, sample, poly_voice => do
    let poly_voice1 ← compute_if_enabled cfg (rand vid) enable mask vid poly_voice
    let sample1 ← tally_if_unmuted mute mask vid sample poly_voice1
    poly_next_loop cfg rand enable mute count (vid + 1) (to_uint16 ((mask <<< 1 : Nat) : Int))
      sample1 poly_voice1

/-- Function `poly_next`: the next output sample and the state afterwards. -/
def poly_next (cfg : poly_cfg) (rand : Nat → Nat) (s : poly_state) :
    Option (Int × poly_state) :=
  if s.poly_remain = 0 then
    some (0, s)
  else do
    let (sample, poly_voice1) ←
      poly_next_loop cfg rand s._poly_enable s._poly_mute (poly_num_channels s) 0 1 0 s.poly_voice
    pure (sample, { s with poly_voice := poly_voice1, poly_remain := s.poly_remain - 1 })

/-- The state after `k` consecutive calls of `poly_next`; `rand i vid` is the
value of `rand()` for channel `vid` in call number `i` (counted from 0). -/
def poly_next_times (cfg : poly_cfg) (rand : Nat → Nat → Nat) :
    Nat → poly_state → Option poly_state
  | 0, s => some s
  | k + 1, s => do
    let s1 ← poly_next_times cfg rand k s
    let (_, s2) ← poly_next cfg (rand k) s1
    pure s2

/-! ## Concrete inputs and definedness of a run -/

/-- One-channel engine in the middle of a countdown, used as a concrete input. -/
def busy_state : poly_state :=
  { poly_voice := [{ voice_zero with freq := 440, amp := 200 }],
    _poly_enable := 1, _poly_mute := 0, poly_remain := 5 }

/-- Two-channel idle engine, used as a concrete input. -/
def idle_state : poly_state :=
  { poly_voice := [{ voice_zero with freq := 440, amp := 200, ascale := 3 }, voice_zero],
    _poly_enable := 1, _poly_mute := 2, poly_remain := 0 }

/-- The twelve event types that `poly.h` defines. -/
def defined_evt_types : List Nat :=
  [POLY_EVT_TYPE_END, POLY_EVT_TYPE_TIME, POLY_EVT_TYPE_ENABLE, POLY_EVT_TYPE_MUTE,
   POLY_EVT_TYPE_IFREQ, POLY_EVT_TYPE_DFREQ, POLY_EVT_TYPE_PMOD, POLY_EVT_TYPE_IAMP,
   POLY_EVT_TYPE_DAMP, POLY_EVT_TYPE_AMOD, POLY_EVT_TYPE_ASCALE, POLY_EVT_TYPE_DSCALE]

/-- The registers of a voice keep `poly_compute` within defined behaviour for
an array of `n` voices: an enabled modulation source selects a channel of the
array and the amplitude scale is a valid shift count. -/
def voice_defined (n : Nat) (voice : poly_voice_t) : Prop :=
  (voice.amod ≠ 0 → voice.amod &&& 0x0f < n) ∧
  (voice.pmod ≠ 0 → voice.pmod &&& 0x0f < n) ∧
  voice.ascale < 32

instance (n : Nat) (voice : poly_voice_t) : Decidable (voice_defined n voice) := by
  unfold voice_defined
  infer_instance

/-- Every voice of the array satisfies `voice_defined`. -/
def voices_defined (poly_voice : List poly_voice_t) : Prop :=
  ∀ voice ∈ poly_voice, voice_defined poly_voice.length voice

instance (poly_voice : List poly_voice_t) : Decidable (voices_defined poly_voice) := by
  unfold voices_defined
  infer_instance

/-- The configuration and the state keep `poly_next` within defined
behaviour: the sample rate and `RAND_MAX/512` are non-zero divisors and every
voice satisfies `voice_defined`. -/
def run_defined (cfg : poly_cfg) (s : poly_state) : Prop :=
  cfg.poly_freq ≠ 0 ∧ cfg.RAND_MAX / 512 ≠ 0 ∧ voices_defined s.poly_voice

instance (cfg : poly_cfg) (s : poly_state) : Decidable (run_defined cfg s) := by
  unfold run_defined
  infer_instance

/-- The `uint16_t` argument that the tone branch of `poly_compute` hands to
`poly_sine`: the steps of `tone_sample` up to the conversion of the reduced
`int64_t` angle. -/
def tone_angle (cfg : poly_cfg) (poly_voice : List poly_voice_t) (voice : poly_voice_t) :
    Option Nat := do
  let angle0 : Int := angle_scale cfg voice.freq * (voice.time : Int)
  let angle1 : Int ←
    if cfg.poly_freq = 0 then none
    else some (Int.tdiv angle0 (cfg.poly_freq : Int))
  let angle2 : Int ← mod_read poly_voice voice.pmod angle1
  let angle3 : Int := Int.tmod angle2 ((4 * POLY_SINE_SZ : Nat) : Int)
  pure (to_uint16 angle3)

/-- Build of `main.c` for AVR: `int` has 16 bits and `RAND_MAX` is 0x7FFF;
the sample rate is that of the host build. -/
def avr_cfg : poly_cfg :=
  { poly_freq := 32000, poly_freq_max := 16000, RAND_MAX := 32767, int_bits := 16 }

/-- The mix as the specification words it: the sum of the stored samples of
the channels whose bit is clear in the muted mask, `vid` being the channel
number of the head of the list. -/
def unmuted_sum (mute : Nat) : Nat → List poly_voice_t → Int
  | _, [] => 0
  | vid, voice :: rest =>
    (if mute.testBit vid then 0 else voice.sample) + unmuted_sum mute (vid + 1) rest

/-- The registers of a voice that only `poly_load` writes and `poly_compute`
relies on: the two modulation sources and the amplitude scale. -/
def voice_regs (voice : poly_voice_t) : Nat × Nat × Nat :=
  (voice.amod, voice.pmod, voice.ascale)

/-- Channel 0 enabled and amplitude modulated by channel 1, channel 1 disabled
with the last sample 100, the countdown running. -/
def frozen_state : poly_state :=
  { poly_voice := [{ voice_zero with amp := 50, amod := 0x81 },
      { voice_zero with sample := 100, freq := 440, amp := 200 }],
    _poly_enable := 1, _poly_mute := 0, poly_remain := 10 }

/-- The reset state of an engine with one channel. -/
def tone_reset : poly_state :=
  { poly_voice := [voice_zero], _poly_enable := 0, _poly_mute := 0, poly_remain := 0 }

/-- The events of the 1 kHz scenario: IFREQ 1000, IAMP 255, ASCALE 8 on
channel 0, ENABLE 1, TIME 32000. -/
def tone_events : List poly_evt_t :=
  [⟨0x4000, 1000⟩, ⟨0x8000, 255⟩, ⟨0xb000, 8⟩, ⟨0x2000, 1⟩, ⟨0x1000, 32000⟩]

/-- Loads a list of events in order; the result is the list of the return
values of `poly_load` and the final state. -/
def poly_load_all : poly_state → List poly_evt_t → Option (List Int × poly_state)
  | s, [] => some ([], s)
  | s, event :: rest => do
    let (r, s1) ← poly_load s event
    let (rs, s2) ← poly_load_all s1 rest
    pure (r :: rs, s2)

/-- The sample returned by call number `k` (counted from 0) of `poly_next`
in a run of consecutive calls from state `s`. -/
def poly_next_out (cfg : poly_cfg) (rand : Nat → Nat → Nat) (k : Nat) (s : poly_state) :
    Option Int := do
  let sk ← poly_next_times cfg rand k s
  let (out, _) ← poly_next cfg (rand k) sk
  pure out

/-- The voice of the 1 kHz scenario at a given time with a given last sample. -/
def tone_voice (time : Nat) (sample : Int) : poly_voice_t :=
  { voice_zero with freq := 1000, amp := 255, ascale := 8, time := time, sample := sample }

/-- The state of the 1 kHz scenario after `k` of the 32000 ticks. -/
def tone_state (k : Nat) (sample : Int) : poly_state :=
  { poly_voice := [tone_voice k sample], _poly_enable := 1, _poly_mute := 0,
    poly_remain := 32000 - k }

/-- The reset state of an engine with `n` channels: the voice array and the
countdown cleared by `poly_reset`, both masks at their initial value 0. -/
def reset_state (n : Nat) : poly_state :=
  { poly_voice := List.replicate n voice_zero, _poly_enable := 0, _poly_mute := 0,
    poly_remain := 0 }

/-- The states an engine with `n` channels reaches from the reset state by
calls of `poly_load` and `poly_next` that return; `ok` restricts the events
that are loaded. -/
inductive reachable (cfg : poly_cfg) (n : Nat) (ok : poly_evt_t → Prop) : poly_state → Prop
  | reset : reachable cfg n ok (reset_state n)
  | load (s s1 : poly_state) (event : poly_evt_t) (r : Int) :
      reachable cfg n ok s → ok event → poly_load s event = some (r, s1) →
      reachable cfg n ok s1
  | next (s s1 : poly_state) (rand : Nat → Nat) (out : Int) :
      reachable cfg n ok s → poly_next cfg rand s = some (out, s1) →
      reachable cfg n ok s1

/-- A PMOD or AMOD event names a modulation source that an engine with `n`
channels has: its value is the sentinel 0xFFFF or has a low nibble below
`n`. -/
def evt_source_ok (n : Nat) (event : poly_evt_t) : Prop :=
  (evt_type event = POLY_EVT_TYPE_PMOD ∨ evt_type event = POLY_EVT_TYPE_AMOD) →
    event.value = UINT16_MAX ∨ event.value &&& 0x0f < n

instance (n : Nat) (event : poly_evt_t) : Decidable (evt_source_ok n event) := by
  unfold evt_source_ok
  infer_instance

/-- The modulation sources of a voice are valid for `n` channels: each is
disabled or selects a channel below `n`. -/
def sources_valid (n : Nat) (voice : poly_voice_t) : Prop :=
  (voice.pmod = 0 ∨ voice.pmod &&& 0x0f < n) ∧ (voice.amod = 0 ∨ voice.amod &&& 0x0f < n)

instance (n : Nat) (voice : poly_voice_t) : Decidable (sources_valid n voice) := by
  unfold sources_valid
  infer_instance

/-- The host engine (8 channels) after an AMOD event with value 9 on channel 0. -/
def amod9_state : poly_state :=
  { poly_voice := { voice_zero with amod := 0x89 } :: List.replicate 7 voice_zero,
    _poly_enable := 0, _poly_mute := 0, poly_remain := 0 }

/-- The host engine (8 channels) after an AMOD event with value 7 on channel 0. -/
def amod7_state : poly_state :=
  { poly_voice := { voice_zero with amod := 0x87 } :: List.replicate 7 voice_zero,
    _poly_enable := 0, _poly_mute := 0, poly_remain := 0 }

/-- An engine with 2 channels after an ASCALE event with value 31 on channel 1. -/
def ascale31_state : poly_state :=
  { poly_voice := [voice_zero, { voice_zero with ascale := 31 }],
    _poly_enable := 0, _poly_mute := 0, poly_remain := 0 }

/-- The voice after `k` consecutive calls of `poly_compute` with no event in
between; `rand i` and `pvs i` are the value of `rand()` and the voice array
at call number `i` (counted from 0). -/
def poly_compute_times (cfg : poly_cfg) (rand : Nat → Nat) (pvs : Nat → List poly_voice_t) :
    Nat → poly_voice_t → Option poly_voice_t
  | 0, voice => some voice
  | k + 1, voice => do
    let voice1 ← poly_compute_times cfg rand pvs k voice
    poly_compute cfg (rand k) (pvs k) voice1

/-- Two enabled channels, channel 1 amplitude modulated by channel 0, with
the countdown running. -/
def order_state : poly_state :=
  { poly_voice := [{ voice_zero with amp := 5 }, { voice_zero with amp := 1, amod := 0x80 }],
    _poly_enable := 3, _poly_mute := 0, poly_remain := 1 }

/-- The state that one call of `poly_next` makes of `order_state`. -/
def order_state1 : poly_state :=
  { poly_voice := [{ voice_zero with amp := 5, sample := 5, time := 1 },
      { voice_zero with amp := 1, amod := 0x80, sample := 6, time := 1 }],
    _poly_enable := 3, _poly_mute := 0, poly_remain := 0 }

/-! ## Event dispatch -/

/-- C1. Gating rule: while the countdown is running (`poly_remain > 0`), every
event whose type is neither END nor TIME is answered with `-EINPROGRESS`, and
the voices, both masks and the countdown are left as they were. -/
theorem poly_load_busy (s : poly_state) (event : poly_evt_t)
    (hrem : 0 < s.poly_remain)
    (hend : evt_type event ≠ POLY_EVT_TYPE_END)
    (htime : evt_type event ≠ POLY_EVT_TYPE_TIME) :
    poly_load s event = some (-EINPROGRESS, s) := by
  have hne : s.poly_remain ≠ 0 := Nat.pos_iff_ne_zero.mp hrem
  simp [poly_load, hend, htime, hne]

theorem poly_load_busy_witness :
    poly_load busy_state ⟨0x4000, 1000⟩ = some (-EINPROGRESS, busy_state) :=
  poly_load_busy busy_state ⟨0x4000, 1000⟩ (by decide) (by decide) (by decide)

/-- C2. An END event in a state with channels enabled and muted: the call
returns 0, the voices and the countdown are cleared, and both channel masks
keep their values, since `poly_reset` does not touch them. -/
theorem poly_load_end_keeps_masks :
    poly_load
      { poly_voice := [{ voice_zero with freq := 440, amp := 200 }],
        _poly_enable := 1, _poly_mute := 1, poly_remain := 5 }
      ⟨POLY_EVT_TYPE_END, 0⟩
    = some (0, { poly_voice := [voice_zero],
                 _poly_enable := 1, _poly_mute := 1, poly_remain := 0 }) := by
  decide

/-- A store to a channel inside the array succeeds and replaces that voice only. -/
theorem voice_store_some (s : poly_state) (ch : Nat) (f : poly_voice_t → poly_voice_t)
    (voice : poly_voice_t) (hch : s.poly_voice[ch]? = some voice) :
    voice_store s ch f = some (0, { s with poly_voice := s.poly_voice.set ch (f voice) }) := by
  simp [voice_store, hch]

/-- After a store to channel `ch` the array has the new voice at `ch` and the
old voices everywhere else. -/
theorem set_voice_frame (pv : List poly_voice_t) (ch : Nat) (old new : poly_voice_t)
    (hch : pv[ch]? = some old) :
    (pv.set ch new)[ch]? = some new ∧ (pv.set ch new).length = pv.length ∧
    ∀ i, i ≠ ch → (pv.set ch new)[i]? = pv[i]? := by
  have hlt : ch < pv.length := by
    rcases List.getElem?_eq_some_iff.mp hch with ⟨h, _⟩
    exact h
  refine ⟨?_, List.length_set _ _ _, ?_⟩
  · simp [List.getElem?_set, hlt]
  · intro i hi
    simp [List.getElem?_set, Ne.symm hi]

/-- C6. Global-register events are plain assignments.  A TIME event returns 0
in every state and sets the countdown to the event value; an ENABLE (MUTE)
event in an idle state returns 0 and sets the enabled (muted) mask to the
event value.  Nothing else changes. -/
theorem poly_load_global (s : poly_state) (event : poly_evt_t) :
    (evt_type event = POLY_EVT_TYPE_TIME →
      poly_load s event = some (0, { s with poly_remain := event.value })) ∧
    (s.poly_remain = 0 → evt_type event = POLY_EVT_TYPE_ENABLE →
      poly_load s event = some (0, { s with _poly_enable := event.value })) ∧
    (s.poly_remain = 0 → evt_type event = POLY_EVT_TYPE_MUTE →
      poly_load s event = some (0, { s with _poly_mute := event.value })) := by
  refine ⟨?_, ?_, ?_⟩
  · intro h
    simp [poly_load, h]
  · intro hidle h
    simp [poly_load, h, hidle, POLY_EVT_TYPE_ENABLE, POLY_EVT_TYPE_TIME, POLY_EVT_TYPE_END,
      POLY_EVT_TYPE_BIT]
  · intro hidle h
    simp [poly_load, h, hidle, POLY_EVT_TYPE_MUTE, POLY_EVT_TYPE_ENABLE, POLY_EVT_TYPE_TIME,
      POLY_EVT_TYPE_END, POLY_EVT_TYPE_BIT]

theorem poly_load_global_witness :
    poly_load busy_state ⟨0x1000, 64000⟩ = some (0, { busy_state with poly_remain := 64000 }) ∧
    poly_load idle_state ⟨0x2000, 5⟩ = some (0, { idle_state with _poly_enable := 5 }) ∧
    poly_load idle_state ⟨0x3000, 6⟩ = some (0, { idle_state with _poly_mute := 6 }) :=
  ⟨(poly_load_global busy_state ⟨0x1000, 64000⟩).1 (by decide),
   (poly_load_global idle_state ⟨0x2000, 5⟩).2.1 (by decide) (by decide),
   (poly_load_global idle_state ⟨0x3000, 6⟩).2.2 (by decide) (by decide)⟩

/-- C7. An IFREQ event in an idle state, addressed to a channel of the array,
returns 0; the addressed voice gets `freq` equal to the event value and `time`
equal to 0 and keeps its other fields; the other voices, both masks and the
countdown are unchanged. -/
theorem poly_load_ifreq (s : poly_state) (event : poly_evt_t) (voice : poly_voice_t)
    (hidle : s.poly_remain = 0)
    (htype : evt_type event = POLY_EVT_TYPE_IFREQ)
    (hch : s.poly_voice[evt_channel event]? = some voice) :
    ∃ s1, poly_load s event = some (0, s1) ∧
      s1.poly_voice[evt_channel event]? = some { voice with freq := event.value, time := 0 } ∧
      s1.poly_voice.length = s.poly_voice.length ∧
      (∀ i, i ≠ evt_channel event → s1.poly_voice[i]? = s.poly_voice[i]?) ∧
      s1._poly_enable = s._poly_enable ∧ s1._poly_mute = s._poly_mute ∧
      s1.poly_remain = s.poly_remain := by
  have hf := set_voice_frame s.poly_voice (evt_channel event) voice
    { voice with freq := event.value, time := 0 } hch
  have hload : poly_load s event = some (0, { s with
      poly_voice := s.poly_voice.set (evt_channel event)
        ({ voice with freq := event.value, time := 0 }) }) := by
    simp [poly_load, htype, hidle, voice_store, hch, POLY_EVT_TYPE_IFREQ, POLY_EVT_TYPE_MUTE,
      POLY_EVT_TYPE_ENABLE, POLY_EVT_TYPE_TIME, POLY_EVT_TYPE_END, POLY_EVT_TYPE_BIT]
  exact ⟨_, hload, hf.1, hf.2.1, hf.2.2, rfl, rfl, rfl⟩

theorem poly_load_ifreq_witness :
    ∃ s1, poly_load idle_state ⟨0x4100, 1000⟩ = some (0, s1) ∧
      s1.poly_voice[evt_channel ⟨0x4100, 1000⟩]?
        = some { voice_zero with freq := (⟨0x4100, 1000⟩ : poly_evt_t).value, time := 0 } ∧
      s1.poly_voice.length = idle_state.poly_voice.length ∧
      (∀ i, i ≠ evt_channel ⟨0x4100, 1000⟩ → s1.poly_voice[i]? = idle_state.poly_voice[i]?) ∧
      s1._poly_enable = idle_state._poly_enable ∧ s1._poly_mute = idle_state._poly_mute ∧
      s1.poly_remain = idle_state.poly_remain :=
  poly_load_ifreq idle_state ⟨0x4100, 1000⟩ voice_zero (by decide) (by decide) (by decide)

theorem to_uint8_natCast (n : Nat) : to_uint8 (n : Int) = n % 256 := by
  unfold to_uint8
  omega

/-- The event type is the type nibble moved to bits 15-12. -/
theorem evt_type_eq (event : poly_evt_t) :
    evt_type event = ((event.flags >>> 12) &&& 15) <<< 12 := by
  unfold evt_type POLY_EVT_TYPE_MASK POLY_EVT_TYPE_BIT
  apply Nat.eq_of_testBit_eq
  intro i
  simp only [Nat.testBit_and, Nat.testBit_shiftLeft, Nat.testBit_shiftRight]
  by_cases h : 12 ≤ i
  · simp [h, Nat.add_sub_cancel' h]
  · simp [h]

theorem or_0x80_ne_zero (v : Nat) : (v ||| 0x80) % 256 ≠ 0 := by
  intro h
  have h7 : Nat.testBit ((v ||| 0x80) % 2 ^ 8) 7 = true := by
    rw [Nat.testBit_mod_two_pow, Nat.testBit_or]
    have : Nat.testBit 0x80 7 = true := by decide
    simp [this]
  have h8 : (v ||| 0x80) % 2 ^ 8 = 0 := h
  rw [h8] at h7
  simp at h7

theorem or_0x80_low_nibble (v : Nat) : ((v ||| 0x80) % 256) &&& 0x0f = v &&& 0x0f := by
  apply Nat.eq_of_testBit_eq
  intro i
  have e256 : (256 : Nat) = 2 ^ 8 := by norm_num
  have e15 : (0x0f : Nat) = 2 ^ 4 - 1 := by norm_num
  have e128 : (0x80 : Nat) = 2 ^ 7 := by norm_num
  rw [e256, e15, e128]
  simp only [Nat.testBit_and, Nat.testBit_mod_two_pow, Nat.testBit_or, Nat.testBit_two_pow_sub_one,
    Nat.testBit_two_pow]
  by_cases h : i < 4
  · have h1 : i < 8 := by omega
    have h2 : ¬ (7 = i) := by omega
    simp [h, h1, h2]
  · simp [h]

/-- A store through the voice pointer is always followed by `return 0`. -/
theorem voice_store_code (s : poly_state) (ch : Nat) (f : poly_voice_t → poly_voice_t)
    (r : Int) (s1 : poly_state) (h : voice_store s ch f = some (r, s1)) : r = 0 := by
  unfold voice_store at h
  cases hv : s.poly_voice[ch]? with
  | none => simp [hv] at h
  | some voice =>
    simp only [hv, Option.some.injEq, Prod.mk.injEq] at h
    exact h.1.symm

/-- The type nibble of an event is below 16 and determines the event type. -/
theorem evt_type_nibble (event : poly_evt_t) :
    ∃ n, n < 16 ∧ n = (event.flags >>> 12) &&& 15 ∧ evt_type event = n <<< 12 := by
  refine ⟨(event.flags >>> 12) &&& 15, ?_, rfl, evt_type_eq event⟩
  have : (event.flags >>> 12) &&& 15 ≤ 15 := Nat.and_le_right
  omega

@[simp] theorem evt_type_end_val : POLY_EVT_TYPE_END = 0 := rfl
@[simp] theorem evt_type_time_val : POLY_EVT_TYPE_TIME = 0x1000 := rfl
@[simp] theorem evt_type_enable_val : POLY_EVT_TYPE_ENABLE = 0x2000 := rfl
@[simp] theorem evt_type_mute_val : POLY_EVT_TYPE_MUTE = 0x3000 := rfl
@[simp] theorem evt_type_ifreq_val : POLY_EVT_TYPE_IFREQ = 0x4000 := rfl
@[simp] theorem evt_type_dfreq_val : POLY_EVT_TYPE_DFREQ = 0x5000 := rfl
@[simp] theorem evt_type_pmod_val : POLY_EVT_TYPE_PMOD = 0x6000 := rfl
@[simp] theorem evt_type_iamp_val : POLY_EVT_TYPE_IAMP = 0x8000 := rfl
@[simp] theorem evt_type_damp_val : POLY_EVT_TYPE_DAMP = 0x9000 := rfl
@[simp] theorem evt_type_amod_val : POLY_EVT_TYPE_AMOD = 0xa000 := rfl
@[simp] theorem evt_type_ascale_val : POLY_EVT_TYPE_ASCALE = 0xb000 := rfl
@[simp] theorem evt_type_dscale_val : POLY_EVT_TYPE_DSCALE = 0xf000 := rfl

/-- An error code of `poly_load` comes only together with the state it was given. -/
theorem poly_load_error_keeps_state (s : poly_state) (event : poly_evt_t) (r : Int)
    (s1 : poly_state) (h : poly_load s event = some (r, s1)) (hr : r ≠ 0) : s1 = s := by
  obtain ⟨n, hn, -, ht⟩ := evt_type_nibble event
  by_cases hrem : s.poly_remain = 0 <;> interval_cases n <;>
    simp [poly_load, ht, hrem] at h
  all_goals first
    | exact absurd (voice_store_code _ _ _ _ _ h) hr
    | exact h.2.symm
    | exact absurd h.1.symm hr
    | (split at h <;> first
        | exact absurd (voice_store_code _ _ _ _ _ h) hr
        | (simp only [Option.some.injEq, Prod.mk.injEq] at h; exact h.2.symm))




/-- C4. An ASCALE event in an idle state: with a value above 31 the call
returns `-ERANGE` and the whole state, the addressed voice's `ascale`
included, is unchanged; with a value of at most 31, addressed to a channel of
the array, the call returns 0 and only `ascale` of the addressed voice
changes, to the event value. -/
theorem poly_load_ascale (s : poly_state) (event : poly_evt_t)
    (hidle : s.poly_remain = 0)
    (htype : evt_type event = POLY_EVT_TYPE_ASCALE) :
    (event.value > 31 → poly_load s event = some (-ERANGE, s)) ∧
    (event.value ≤ 31 → ∀ voice, s.poly_voice[evt_channel event]? = some voice →
      poly_load s event = some (0, { s with
        poly_voice := s.poly_voice.set (evt_channel event)
          ({ voice with ascale := event.value }) })) := by
  constructor
  · intro hv
    simp [poly_load, htype, hidle, hv]
  · intro hv voice hch
    have hle : ¬ 31 < event.value := by omega
    have hmod : event.value % 256 = event.value := by omega
    simp [poly_load, htype, hidle, hle, voice_store, hch, to_uint8_natCast, hmod]

theorem poly_load_ascale_witness :
    poly_load idle_state ⟨0xb000, 32⟩ = some (-ERANGE, idle_state) ∧
    poly_load idle_state ⟨0xb100, 31⟩ = some (0, { idle_state with
      poly_voice := idle_state.poly_voice.set (evt_channel ⟨0xb100, 31⟩)
        ({ voice_zero with ascale := (⟨0xb100, 31⟩ : poly_evt_t).value }) }) :=
  ⟨(poly_load_ascale idle_state ⟨0xb000, 32⟩ (by decide) (by decide)).1 (by decide),
   (poly_load_ascale idle_state ⟨0xb100, 31⟩ (by decide) (by decide)).2 (by decide)
     voice_zero (by decide)⟩

/-- C5. `poly_load` returns `-EINVAL` exactly when the engine is idle and the
event type is none of the twelve defined ones, that is when the type nibble is
0x7, 0xC, 0xD or 0xE; and whenever `poly_load` returns a non-zero result, the
state is the one it was given. -/
theorem poly_load_einval (s : poly_state) (event : poly_evt_t) :
    ((∃ s1, poly_load s event = some (-EINVAL, s1)) ↔
      (s.poly_remain = 0 ∧ evt_type event ∉ defined_evt_types)) ∧
    (evt_type event ∉ defined_evt_types ↔ (event.flags >>> 12) &&& 15 ∈ [0x7, 0xC, 0xD, 0xE]) ∧
    (∀ r s1, poly_load s event = some (r, s1) → r ≠ 0 → s1 = s) := by
  obtain ⟨n, hn, hnib, ht⟩ := evt_type_nibble event
  refine ⟨?_, ?_, fun r s1 h hr => poly_load_error_keeps_state s event r s1 h hr⟩
  · by_cases hrem : s.poly_remain = 0 <;> interval_cases n <;>
      simp [poly_load, ht, hrem, defined_evt_types, EINVAL, EINPROGRESS, ERANGE]
    all_goals
      intro x h
      first
        | (have h0 := voice_store_code _ _ _ _ _ h; omega)
        | (split at h <;> first
            | (have h0 := voice_store_code _ _ _ _ _ h; omega)
            | (simp at h))
  · rw [← hnib, ht]
    interval_cases n <;> simp [defined_evt_types]

theorem poly_load_einval_witness :
    (∃ s1, poly_load idle_state ⟨0x7000, 1⟩ = some (-EINVAL, s1)) ∧ idle_state = idle_state :=
  ⟨(poly_load_einval idle_state ⟨0x7000, 1⟩).1.mpr ⟨by decide, by decide⟩,
   (poly_load_einval idle_state ⟨0xb000, 40⟩).2.2 (-ERANGE) idle_state (by decide) (by decide)⟩

/-- C8, as the claim states it, fails: an IAMP event with value 256 is
accepted in an idle state and leaves the addressed voice with amplitude 0,
not 256. -/
theorem poly_load_iamp_256 :
    ∃ s1 voice, poly_load idle_state ⟨0x8100, 256⟩ = some (0, s1) ∧
      s1.poly_voice[evt_channel ⟨0x8100, 256⟩]? = some voice ∧
      voice.amp = 0 ∧ voice.amp ≠ (⟨0x8100, 256⟩ : poly_evt_t).value :=
  ⟨{ idle_state with poly_voice := idle_state.poly_voice.set 1 voice_zero }, voice_zero,
    by decide, by decide, by decide, by decide⟩

/-- C8 (amended). IAMP, DAMP and DFREQ events in an idle state, addressed to a
channel of the array, return 0 and store the event value converted to the
type of the field: `amp` becomes the value modulo 256, `damp` the low 8 bits
of the value read as a signed number, `dfreq` the value read as a signed
16-bit number.  No other field, voice, mask or the countdown changes.  For a
value of at most 255 the amplitude is the value itself. -/
theorem poly_load_assign (s : poly_state) (event : poly_evt_t) (voice : poly_voice_t)
    (hidle : s.poly_remain = 0)
    (hch : s.poly_voice[evt_channel event]? = some voice) :
    (evt_type event = POLY_EVT_TYPE_IAMP →
      poly_load s event = some (0, { s with
        poly_voice := s.poly_voice.set (evt_channel event)
          ({ voice with amp := event.value % 256 }) }) ∧
      (event.value ≤ 255 → event.value % 256 = event.value)) ∧
    (evt_type event = POLY_EVT_TYPE_DAMP →
      poly_load s event = some (0, { s with
        poly_voice := s.poly_voice.set (evt_channel event)
          ({ voice with damp := ((event.value : Int) + 128) % 256 - 128 }) })) ∧
    (evt_type event = POLY_EVT_TYPE_DFREQ →
      poly_load s event = some (0, { s with
        poly_voice := s.poly_voice.set (evt_channel event)
          ({ voice with dfreq := ((event.value : Int) + 32768) % 65536 - 32768 }) })) := by
  refine ⟨?_, ?_, ?_⟩
  · intro htype
    refine ⟨?_, fun h => by omega⟩
    simp [poly_load, htype, hidle, voice_store, hch, to_uint8_natCast]
  · intro htype
    simp [poly_load, htype, hidle, voice_store, hch, to_int8]
  · intro htype
    simp [poly_load, htype, hidle, voice_store, hch, to_int16]

theorem poly_load_assign_witness :
    poly_load idle_state ⟨0x8100, 300⟩ = some (0, { idle_state with
      poly_voice := idle_state.poly_voice.set (evt_channel ⟨0x8100, 300⟩)
        ({ voice_zero with amp := (⟨0x8100, 300⟩ : poly_evt_t).value % 256 }) }) ∧
    poly_load idle_state ⟨0x9100, 0xFFFF⟩ = some (0, { idle_state with
      poly_voice := idle_state.poly_voice.set (evt_channel ⟨0x9100, 0xFFFF⟩)
        ({ voice_zero with
            damp := (((⟨0x9100, 0xFFFF⟩ : poly_evt_t).value : Int) + 128) % 256 - 128 }) }) ∧
    poly_load idle_state ⟨0x5100, 0xFFFF⟩ = some (0, { idle_state with
      poly_voice := idle_state.poly_voice.set (evt_channel ⟨0x5100, 0xFFFF⟩)
        ({ voice_zero with
            dfreq := (((⟨0x5100, 0xFFFF⟩ : poly_evt_t).value : Int) + 32768) % 65536 - 32768 }) }) :=
  ⟨((poly_load_assign idle_state ⟨0x8100, 300⟩ voice_zero (by decide) (by decide)).1
      (by decide)).1,
   (poly_load_assign idle_state ⟨0x9100, 0xFFFF⟩ voice_zero (by decide) (by decide)).2.1
      (by decide),
   (poly_load_assign idle_state ⟨0x5100, 0xFFFF⟩ voice_zero (by decide) (by decide)).2.2
      (by decide)⟩

/-- C9. A PMOD (AMOD) event in an idle state, addressed to a channel of the
array, returns 0.  With the value 0xFFFF the voice's `pmod` (`amod`) register
becomes 0, so the modulation read of `poly_compute` is skipped; with any
other value the register is non-zero and the read takes the sample of channel
`value & 0x0f`. -/
theorem poly_load_mod_source (s : poly_state) (event : poly_evt_t) (voice : poly_voice_t)
    (hidle : s.poly_remain = 0)
    (hch : s.poly_voice[evt_channel event]? = some voice) :
    (evt_type event = POLY_EVT_TYPE_PMOD →
      ∃ s1 voice1, poly_load s event = some (0, s1) ∧
        s1.poly_voice[evt_channel event]? = some voice1 ∧
        (event.value = UINT16_MAX → voice1.pmod = 0 ∧
          ∀ pv acc, mod_read pv voice1.pmod acc = some acc) ∧
        (event.value ≠ UINT16_MAX → voice1.pmod ≠ 0 ∧
          voice1.pmod &&& 0x0f = event.value &&& 0x0f ∧
          ∀ pv acc, mod_read pv voice1.pmod acc
            = (pv[event.value &&& 0x0f]?).map (fun source => acc + source.sample))) ∧
    (evt_type event = POLY_EVT_TYPE_AMOD →
      ∃ s1 voice1, poly_load s event = some (0, s1) ∧
        s1.poly_voice[evt_channel event]? = some voice1 ∧
        (event.value = UINT16_MAX → voice1.amod = 0 ∧
          ∀ pv acc, mod_read pv voice1.amod acc = some acc) ∧
        (event.value ≠ UINT16_MAX → voice1.amod ≠ 0 ∧
          voice1.amod &&& 0x0f = event.value &&& 0x0f ∧
          ∀ pv acc, mod_read pv voice1.amod acc
            = (pv[event.value &&& 0x0f]?).map (fun source => acc + source.sample))) := by
  have hne := or_0x80_ne_zero event.value
  have hnib := or_0x80_low_nibble event.value
  constructor
  · intro htype
    by_cases hv : event.value = UINT16_MAX
    · have hf := set_voice_frame s.poly_voice (evt_channel event) voice
        ({ voice with pmod := 0 }) hch
      have hload : poly_load s event = some (0, { s with
          poly_voice := s.poly_voice.set (evt_channel event) ({ voice with pmod := 0 }) }) := by
        simp [poly_load, htype, hidle, voice_store, hch, hv]
      exact ⟨_, _, hload, hf.1, fun _ => ⟨rfl, fun pv acc => by simp [mod_read]⟩,
        fun h => absurd hv h⟩
    · have hf := set_voice_frame s.poly_voice (evt_channel event) voice
        ({ voice with pmod := (event.value ||| 0x80) % 256 }) hch
      have hload : poly_load s event = some (0, { s with
          poly_voice := s.poly_voice.set (evt_channel event)
            ({ voice with pmod := (event.value ||| 0x80) % 256 }) }) := by
        simp [poly_load, htype, hidle, voice_store, hch, hv, to_uint8_natCast]
      refine ⟨_, _, hload, hf.1, fun h => absurd h hv, fun _ => ⟨hne, hnib, fun pv acc => ?_⟩⟩
      simp only [mod_read, hnib]
      rw [if_pos hne]
  · intro htype
    by_cases hv : event.value = UINT16_MAX
    · have hf := set_voice_frame s.poly_voice (evt_channel event) voice
        ({ voice with amod := 0 }) hch
      have hload : poly_load s event = some (0, { s with
          poly_voice := s.poly_voice.set (evt_channel event) ({ voice with amod := 0 }) }) := by
        simp [poly_load, htype, hidle, voice_store, hch, hv]
      exact ⟨_, _, hload, hf.1, fun _ => ⟨rfl, fun pv acc => by simp [mod_read]⟩,
        fun h => absurd hv h⟩
    · have hf := set_voice_frame s.poly_voice (evt_channel event) voice
        ({ voice with amod := (event.value ||| 0x80) % 256 }) hch
      have hload : poly_load s event = some (0, { s with
          poly_voice := s.poly_voice.set (evt_channel event)
            ({ voice with amod := (event.value ||| 0x80) % 256 }) }) := by
        simp [poly_load, htype, hidle, voice_store, hch, hv, to_uint8_natCast]
      refine ⟨_, _, hload, hf.1, fun h => absurd h hv, fun _ => ⟨hne, hnib, fun pv acc => ?_⟩⟩
      simp only [mod_read, hnib]
      rw [if_pos hne]

theorem poly_load_mod_source_witness :
    (∃ s1 voice1, poly_load idle_state ⟨0x6100, 0x20⟩ = some (0, s1) ∧
        s1.poly_voice[evt_channel ⟨0x6100, 0x20⟩]? = some voice1 ∧
        ((⟨0x6100, 0x20⟩ : poly_evt_t).value = UINT16_MAX → voice1.pmod = 0 ∧
          ∀ pv acc, mod_read pv voice1.pmod acc = some acc) ∧
        ((⟨0x6100, 0x20⟩ : poly_evt_t).value ≠ UINT16_MAX → voice1.pmod ≠ 0 ∧
          voice1.pmod &&& 0x0f = (⟨0x6100, 0x20⟩ : poly_evt_t).value &&& 0x0f ∧
          ∀ pv acc, mod_read pv voice1.pmod acc
            = (pv[(⟨0x6100, 0x20⟩ : poly_evt_t).value &&& 0x0f]?).map
                (fun source => acc + source.sample))) ∧
    (∃ s1 voice1, poly_load idle_state ⟨0xa000, 0xFFFF⟩ = some (0, s1) ∧
        s1.poly_voice[evt_channel ⟨0xa000, 0xFFFF⟩]? = some voice1 ∧
        ((⟨0xa000, 0xFFFF⟩ : poly_evt_t).value = UINT16_MAX → voice1.amod = 0 ∧
          ∀ pv acc, mod_read pv voice1.amod acc = some acc) ∧
        ((⟨0xa000, 0xFFFF⟩ : poly_evt_t).value ≠ UINT16_MAX → voice1.amod ≠ 0 ∧
          voice1.amod &&& 0x0f = (⟨0xa000, 0xFFFF⟩ : poly_evt_t).value &&& 0x0f ∧
          ∀ pv acc, mod_read pv voice1.amod acc
            = (pv[(⟨0xa000, 0xFFFF⟩ : poly_evt_t).value &&& 0x0f]?).map
                (fun source => acc + source.sample))) :=
  ⟨(poly_load_mod_source idle_state ⟨0x6100, 0x20⟩ voice_zero (by decide) (by decide)).1
      (by decide),
   (poly_load_mod_source idle_state ⟨0xa000, 0xFFFF⟩
      { voice_zero with freq := 440, amp := 200, ascale := 3 } (by decide) (by decide)).2
      (by decide)⟩


/-! ## The sinusoid -/

set_option maxRecDepth 8000

theorem poly_sine_table_length : _poly_sine.length = 360 := rfl

/-- The sign and the table index that `poly_sine` arrives at for an angle
already reduced below 1440. -/
theorem poly_sine_reduced (angle : Nat) (h : angle < 1440) :
    poly_sine angle =
      (_poly_sine[if angle < 360 then angle else if angle < 720 then 719 - angle
          else if angle < 1080 then angle - 720 else 1439 - angle]?).map
        (fun (b : Nat) => (if angle < 720 then 1 else -1 : Int) * (b : Int)) := by
  have h1 : angle % (360 * 4) = angle := Nat.mod_eq_of_lt (by omega)
  unfold poly_sine POLY_SINE_SZ
  simp only [h1]
  split_ifs <;> first
    | omega
    | rfl
    | (congr 2; omega)

/-- C10. Quadrant symmetry of `poly_sine`: for every angle `a` in `[0, 359]`
the call `poly_sine(a)` returns a value `y`, `poly_sine(720 - a - 1)` returns
`y` and `poly_sine(1440 - a - 1)` returns `-y`. -/
theorem poly_sine_quadrant_symmetry (a : Nat) (ha : a ≤ 359) :
    ∃ y, poly_sine a = some y ∧ poly_sine (720 - a - 1) = some y ∧
      poly_sine (1440 - a - 1) = some (-y) := by
  have hlt : a < _poly_sine.length := by rw [poly_sine_table_length]; omega
  have hget : _poly_sine[a]? = some _poly_sine[a] := List.getElem?_eq_getElem hlt
  refine ⟨(_poly_sine[a] : Int), ?_, ?_, ?_⟩
  · rw [poly_sine_reduced a (by omega)]
    have c1 : a < 360 := by omega
    have c2 : a < 720 := by omega
    simp [c1, c2, hget]
  · rw [poly_sine_reduced (720 - a - 1) (by omega)]
    have c1 : ¬ (720 - a - 1 < 360) := by omega
    have c2 : 720 - a - 1 < 720 := by omega
    have c3 : 719 - (720 - a - 1) = a := by omega
    simp [c1, c2, c3, hget]
  · rw [poly_sine_reduced (1440 - a - 1) (by omega)]
    have c1 : ¬ (1440 - a - 1 < 360) := by omega
    have c2 : ¬ (1440 - a - 1 < 720) := by omega
    have c3 : ¬ (1440 - a - 1 < 1080) := by omega
    have c4 : 1439 - (1440 - a - 1) = a := by omega
    simp [c1, c2, c3, c4, hget]

theorem poly_sine_quadrant_symmetry_witness :
    ∃ y, poly_sine 100 = some y ∧ poly_sine (720 - 100 - 1) = some y ∧
      poly_sine (1440 - 100 - 1) = some (-y) :=
  poly_sine_quadrant_symmetry 100 (by decide)

/-! ## Sample production -/

theorem poly_sine_mod (angle : Nat) : poly_sine angle = poly_sine (angle % 1440) := by
  unfold poly_sine POLY_SINE_SZ
  simp only [Nat.mod_mod]

/-- The call `poly_sine` returns a value for every argument: the `assert` holds. -/
theorem poly_sine_some (angle : Nat) : ∃ y, poly_sine angle = some y := by
  have hlt : angle % 1440 < 1440 := Nat.mod_lt _ (by norm_num)
  rw [poly_sine_mod, poly_sine_reduced _ hlt]
  generalize angle % 1440 = a at hlt
  have hidx : (if a < 360 then a else if a < 720 then 719 - a
      else if a < 1080 then a - 720 else 1439 - a) < _poly_sine.length := by
    rw [poly_sine_table_length]
    split_ifs <;> omega
  rw [List.getElem?_eq_getElem hidx]
  exact ⟨_, rfl⟩

theorem mod_read_some (pv : List poly_voice_t) (src : Nat) (acc : Int)
    (h : src ≠ 0 → src &&& 0x0f < pv.length) : ∃ x, mod_read pv src acc = some x := by
  unfold mod_read
  by_cases hs : src ≠ 0
  · rw [if_pos hs, List.getElem?_eq_getElem (h hs)]
    exact ⟨_, rfl⟩
  · rw [if_neg hs]
    exact ⟨_, rfl⟩

theorem tone_sample_some (cfg : poly_cfg) (pv : List poly_voice_t) (voice : poly_voice_t)
    (hf : cfg.poly_freq ≠ 0) (hv : voice_defined pv.length voice) :
    ∃ x, tone_sample cfg pv voice = some x := by
  unfold tone_sample
  obtain ⟨a2, h2⟩ := mod_read_some pv voice.pmod
    (Int.tdiv (angle_scale cfg voice.freq * (voice.time : Int)) (cfg.poly_freq : Int)) hv.2.1
  obtain ⟨y, hy⟩ := poly_sine_some (to_uint16 (Int.tmod a2 ((4 * POLY_SINE_SZ : Nat) : Int)))
  refine ⟨y, ?_⟩
  simp only [if_neg hf, h2, Option.bind_eq_bind, Option.some_bind]
  exact hy

theorem voice_sample_some (cfg : poly_cfg) (rand : Nat) (pv : List poly_voice_t)
    (voice : poly_voice_t) (amp : Int)
    (hf : cfg.poly_freq ≠ 0) (hr : cfg.RAND_MAX / 512 ≠ 0) (hv : voice_defined pv.length voice) :
    ∃ x, voice_sample cfg rand pv voice amp = some x := by
  unfold voice_sample
  have hs : voice.ascale < 32 := hv.2.2
  by_cases ha : amp ≠ 0
  · rw [if_pos ha]
    by_cases hq : voice.freq ≠ 0
    · by_cases ht : voice.freq < UINT16_MAX
      · obtain ⟨w, hw⟩ := tone_sample_some cfg pv voice hf hv
        exact ⟨(w * amp) >>> voice.ascale, by simp [hq, ht, hw, hs]⟩
      · exact ⟨((((rand / (cfg.RAND_MAX / 512) : Nat) : Int) - 256) * amp) >>> voice.ascale,
          by simp [hq, ht, noise_sample, hr, hs]⟩
    · exact ⟨amp >>> voice.ascale, by simp [hq, hs]⟩
  · rw [if_neg ha]
    exact ⟨_, rfl⟩

/-- The ramps leave the modulation and scale registers alone. -/
theorem voice_ramp_regs (cfg : poly_cfg) (voice : poly_voice_t) :
    (voice_ramp cfg voice).amod = voice.amod ∧ (voice_ramp cfg voice).pmod = voice.pmod ∧
    (voice_ramp cfg voice).ascale = voice.ascale ∧ (voice_ramp cfg voice).time = voice.time := by
  unfold voice_ramp ramp_amp ramp_freq
  simp only
  split_ifs <;> simp

/-- Within defined behaviour `poly_compute` returns a voice, with the same
modulation and scale registers. -/
theorem poly_compute_some (cfg : poly_cfg) (rand : Nat) (pv : List poly_voice_t)
    (voice : poly_voice_t)
    (hf : cfg.poly_freq ≠ 0) (hr : cfg.RAND_MAX / 512 ≠ 0) (hv : voice_defined pv.length voice) :
    ∃ voice1, poly_compute cfg rand pv voice = some voice1 ∧
      voice_defined pv.length voice1 := by
  obtain ⟨amp, hamp⟩ := mod_read_some pv voice.amod (voice.amp : Int) hv.1
  obtain ⟨x, hx⟩ := voice_sample_some cfg rand pv voice amp hf hr hv
  obtain ⟨r1, r2, r3, -⟩ := voice_ramp_regs cfg voice
  refine ⟨{ voice_ramp cfg voice with
      sample := clip_sample x
      time := to_uint16 (((voice_ramp cfg voice).time : Int) + 1) },
    by simp [poly_compute, hamp, hx], ?_⟩
  unfold voice_defined
  simp only [r1, r2, r3]
  exact hv

theorem compute_if_enabled_some (cfg : poly_cfg) (rand enable mask vid : Nat)
    (pv : List poly_voice_t)
    (hf : cfg.poly_freq ≠ 0) (hr : cfg.RAND_MAX / 512 ≠ 0)
    (hvid : vid < pv.length) (hdef : voices_defined pv) :
    ∃ pv1, compute_if_enabled cfg rand enable mask vid pv = some pv1 ∧
      pv1.length = pv.length ∧ voices_defined pv1 := by
  unfold compute_if_enabled
  by_cases he : enable &&& mask ≠ 0
  · rw [if_pos he]
    have hget : pv[vid]? = some pv[vid] := List.getElem?_eq_getElem hvid
    obtain ⟨voice1, h1, hd1⟩ := poly_compute_some cfg rand pv pv[vid] hf hr
      (hdef _ (List.getElem_mem hvid))
    refine ⟨pv.set vid voice1, by simp [hget, h1], List.length_set _ _ _, ?_⟩
    intro voice hmem
    rw [List.length_set]
    rcases List.mem_or_eq_of_mem_set hmem with h | h
    · exact hdef voice h
    · rw [h]; exact hd1
  · rw [if_neg he]
    exact ⟨pv, rfl, rfl, hdef⟩

theorem tally_if_unmuted_some (mute mask vid : Nat) (sample : Int) (pv : List poly_voice_t)
    (hvid : vid < pv.length) : ∃ x, tally_if_unmuted mute mask vid sample pv = some x := by
  unfold tally_if_unmuted
  by_cases hm : mute &&& mask = 0
  · rw [if_pos hm, List.getElem?_eq_getElem hvid]
    exact ⟨_, rfl⟩
  · rw [if_neg hm]
    exact ⟨_, rfl⟩

/-- Within defined behaviour the loop of `poly_next` runs through: it returns
a tally and an array of the same length that is again within defined
behaviour. -/
theorem poly_next_loop_some (cfg : poly_cfg) (rand : Nat → Nat) (enable mute : Nat)
    (hf : cfg.poly_freq ≠ 0) (hr : cfg.RAND_MAX / 512 ≠ 0) :
    ∀ (count vid mask : Nat) (sample : Int) (pv : List poly_voice_t),
      vid + count = pv.length → voices_defined pv →
      ∃ out pv1, poly_next_loop cfg rand enable mute count vid mask sample pv = some (out, pv1) ∧
        pv1.length = pv.length ∧ voices_defined pv1 := by
  intro count
  induction count with
  | zero =>
    intro vid mask sample pv _ hdef
    exact ⟨sample, pv, rfl, rfl, hdef⟩
  | succ count ih =>
    intro vid mask sample pv hlen hdef
    have hvid : vid < pv.length := by omega
    obtain ⟨pv1, h1, hl1, hd1⟩ :=
      compute_if_enabled_some cfg (rand vid) enable mask vid pv hf hr hvid hdef
    obtain ⟨x, hx⟩ := tally_if_unmuted_some mute mask vid sample pv1 (by omega)
    obtain ⟨out, pv2, h2, hl2, hd2⟩ :=
      ih (vid + 1) (to_uint16 ((mask <<< 1 : Nat) : Int)) x pv1 (by omega) hd1
    refine ⟨out, pv2, ?_, by omega, hd2⟩
    rw [poly_next_loop]
    simp only [h1, hx, Option.bind_eq_bind, Option.some_bind]
    exact h2

/-- In the idle state `poly_next` returns 0 and the state it was given. -/
theorem poly_next_idle (cfg : poly_cfg) (rand : Nat → Nat) (s : poly_state)
    (hidle : s.poly_remain = 0) : poly_next cfg rand s = some (0, s) := by
  simp [poly_next, hidle]

/-- Within defined behaviour a call of `poly_next` with the countdown running
returns a sample and a state with the countdown one lower, both masks
unchanged, and again within defined behaviour. -/
theorem poly_next_running (cfg : poly_cfg) (rand : Nat → Nat) (s : poly_state)
    (hdef : run_defined cfg s) (hrun : s.poly_remain ≠ 0) :
    ∃ out s1, poly_next cfg rand s = some (out, s1) ∧ s1.poly_remain = s.poly_remain - 1 ∧
      s1._poly_enable = s._poly_enable ∧ s1._poly_mute = s._poly_mute ∧
      s1.poly_voice.length = s.poly_voice.length ∧ run_defined cfg s1 := by
  obtain ⟨hf, hr, hv⟩ := hdef
  obtain ⟨out, pv1, h1, hl1, hd1⟩ := poly_next_loop_some cfg rand s._poly_enable s._poly_mute hf hr
    (poly_num_channels s) 0 1 0 s.poly_voice (by simp [poly_num_channels]) hv
  refine ⟨out, { s with poly_voice := pv1, poly_remain := s.poly_remain - 1 }, ?_, rfl, rfl, rfl,
    hl1, hf, hr, hd1⟩
  simp [poly_next, hrun, h1]

/-- Within defined behaviour every call of `poly_next` returns, and the
countdown after `k` calls is the countdown before less `k`, stopping at 0. -/
theorem poly_next_times_remain (cfg : poly_cfg) (rand : Nat → Nat → Nat) (s : poly_state)
    (hdef : run_defined cfg s) :
    ∀ k, ∃ sk, poly_next_times cfg rand k s = some sk ∧ sk.poly_remain = s.poly_remain - k ∧
      run_defined cfg sk := by
  intro k
  induction k with
  | zero => exact ⟨s, rfl, rfl, hdef⟩
  | succ k ih =>
    obtain ⟨sk, hk, hrem, hdk⟩ := ih
    by_cases hidle : sk.poly_remain = 0
    · refine ⟨sk, ?_, by omega, hdk⟩
      simp [poly_next_times, hk, poly_next_idle cfg (rand k) sk hidle]
    · obtain ⟨out, s1, h1, hr1, -, -, -, hd1⟩ := poly_next_running cfg (rand k) sk hdk hidle
      refine ⟨s1, ?_, by omega, hd1⟩
      simp [poly_next_times, hk, h1]

/-- An idle state stays as it is under any number of calls of `poly_next`. -/
theorem poly_next_times_idle (cfg : poly_cfg) (rand : Nat → Nat → Nat) (s : poly_state)
    (hidle : s.poly_remain = 0) : ∀ k, poly_next_times cfg rand k s = some s := by
  intro k
  induction k with
  | zero => rfl
  | succ k ih => simp [poly_next_times, ih, poly_next_idle cfg (rand k) s hidle]

/-- C3. Countdown gate.  Within defined behaviour, a TIME event with value
`n` is accepted and after `k` following calls of `poly_next` the countdown is
`n - k`, stopping at 0 (so it is 0 after exactly `n` calls and never wraps);
and in every state with the countdown at 0, `poly_next` returns 0 and leaves
the whole state unchanged, for any number of calls. -/
theorem poly_next_countdown (cfg : poly_cfg) (rand : Nat → Nat → Nat) (s : poly_state)
    (event : poly_evt_t)
    (hdef : run_defined cfg s)
    (htime : evt_type event = POLY_EVT_TYPE_TIME) :
    (∃ s1, poly_load s event = some (0, s1) ∧
      ∀ k, ∃ sk, poly_next_times cfg rand k s1 = some sk ∧
        sk.poly_remain = event.value - k) ∧
    (∀ t : poly_state, t.poly_remain = 0 →
      (∀ rnd, poly_next cfg rnd t = some (0, t)) ∧
      ∀ k, poly_next_times cfg rand k t = some t) := by
  constructor
  · refine ⟨{ s with poly_remain := event.value }, by simp [poly_load, htime], ?_⟩
    intro k
    have hdef1 : run_defined cfg { s with poly_remain := event.value } := hdef
    obtain ⟨sk, hk, hrem, -⟩ := poly_next_times_remain cfg rand _ hdef1 k
    exact ⟨sk, hk, hrem⟩
  · intro t ht
    exact ⟨fun rnd => poly_next_idle cfg rnd t ht, poly_next_times_idle cfg rand t ht⟩

theorem poly_next_countdown_witness :
    (∃ s1, poly_load idle_state ⟨0x1000, 3⟩ = some (0, s1) ∧
      ∀ k, ∃ sk, poly_next_times pctest_cfg (fun _ _ => 0) k s1 = some sk ∧
        sk.poly_remain = (⟨0x1000, 3⟩ : poly_evt_t).value - k) ∧
    (∀ t : poly_state, t.poly_remain = 0 →
      (∀ rnd, poly_next pctest_cfg rnd t = some (0, t)) ∧
      ∀ k, poly_next_times pctest_cfg (fun _ _ => 0) k t = some t) :=
  poly_next_countdown pctest_cfg (fun _ _ => 0) idle_state ⟨0x1000, 3⟩ (by decide) (by decide)

/-! ## Range of the sinusoid -/


theorem poly_sine_table_bound : ∀ b ∈ _poly_sine, b ≤ 254 := by decide

/-- Every value of `poly_sine` is a table entry with a sign, so it lies in
`[-254, 254]`. -/
theorem poly_sine_range (angle : Nat) (y : Int) (h : poly_sine angle = some y) :
    -254 ≤ y ∧ y ≤ 254 := by
  have hlt : angle % 1440 < 1440 := Nat.mod_lt _ (by norm_num)
  rw [poly_sine_mod, poly_sine_reduced _ hlt] at h
  rcases Option.map_eq_some'.mp h with ⟨b, hb, hy⟩
  obtain ⟨hi, hbe⟩ := List.getElem?_eq_some_iff.mp hb
  have hmem : b ∈ _poly_sine := hbe ▸ List.getElem_mem hi
  have hle := poly_sine_table_bound b hmem
  split_ifs at hy <;> omega

/-- C19. For every argument, 16-bit or not, `poly_sine` returns a value (the
`assert` on the folded angle holds and the table is indexed within its 360
entries), and that value lies in `[-254, 254]`. -/
theorem poly_sine_total_bounded (angle : Nat) :
    ∃ y, poly_sine angle = some y ∧ -254 ≤ y ∧ y ≤ 254 := by
  obtain ⟨y, hy⟩ := poly_sine_some angle
  exact ⟨y, hy, poly_sine_range angle y hy⟩

/-! ## One tick of a voice -/

/-- Within defined behaviour `poly_compute` returns the ramped voice with the
clipped sample stored and the time stepped; `amp` is the effective amplitude
and `x` the sample before clipping. -/
theorem poly_compute_result (cfg : poly_cfg) (rand : Nat) (pv : List poly_voice_t)
    (voice : poly_voice_t)
    (hf : cfg.poly_freq ≠ 0) (hr : cfg.RAND_MAX / 512 ≠ 0) (hv : voice_defined pv.length voice) :
    ∃ amp x, mod_read pv voice.amod (voice.amp : Int) = some amp ∧
      voice_sample cfg rand pv voice amp = some x ∧
      poly_compute cfg rand pv voice = some { voice_ramp cfg voice with
        sample := clip_sample x
        time := to_uint16 ((voice.time : Int) + 1) } := by
  obtain ⟨amp, hamp⟩ := mod_read_some pv voice.amod (voice.amp : Int) hv.1
  obtain ⟨x, hx⟩ := voice_sample_some cfg rand pv voice amp hf hr hv
  refine ⟨amp, x, hamp, hx, ?_⟩
  simp [poly_compute, hamp, hx, (voice_ramp_regs cfg voice).2.2.2]

theorem ramp_due_iff (voice : poly_voice_t) :
    ramp_due voice = true ↔ voice.dscale ≠ 0 ∧ voice.time % voice.dscale = 0 := by
  simp [ramp_due]

/-- The frequency ramp touches only `freq`. -/
theorem ramp_freq_frame (cfg : poly_cfg) (voice : poly_voice_t) :
    (ramp_freq cfg voice).amp = voice.amp ∧ (ramp_freq cfg voice).damp = voice.damp ∧
    (ramp_freq cfg voice).dfreq = voice.dfreq := by
  unfold ramp_freq
  simp only
  split_ifs <;> simp

/-- The amplitude ramp touches only `amp` and `damp`. -/
theorem ramp_amp_frame (voice : poly_voice_t) :
    (ramp_amp voice).freq = voice.freq ∧ (ramp_amp voice).dfreq = voice.dfreq := by
  unfold ramp_amp
  simp only
  split_ifs <;> simp

/-- The amplitude ramp of a voice with `damp != 0`, by the three cases of the
sum `amp + damp`. -/
theorem ramp_amp_cases (w : poly_voice_t) (hd : w.damp ≠ 0) :
    (0 ≤ (w.amp : Int) + w.damp → (w.amp : Int) + w.damp ≤ 255 →
      ((ramp_amp w).amp : Int) = (w.amp : Int) + w.damp ∧ (ramp_amp w).damp = w.damp) ∧
    ((w.amp : Int) + w.damp > 255 → (ramp_amp w).amp = 255 ∧ (ramp_amp w).damp = 0) ∧
    ((w.amp : Int) + w.damp < 0 → (ramp_amp w).amp = 0 ∧ (ramp_amp w).damp = 0) ∧
    (ramp_amp w).amp ≤ 255 := by
  unfold ramp_amp
  simp only [if_pos hd, UINT8_MAX, to_uint8]
  refine ⟨?_, ?_, ?_, ?_⟩
  · intro h0 h1
    have e1 : ¬ ((w.amp : Int) + w.damp < 0) := by omega
    have e2 : ¬ ((w.amp : Int) + w.damp > ((255 : Nat) : Int)) := by omega
    rw [if_neg e1, if_neg e2]
    refine ⟨?_, rfl⟩
    show ((((w.amp : Int) + w.damp) % 256).toNat : Int) = (w.amp : Int) + w.damp
    omega
  · intro h1
    have e1 : ¬ ((w.amp : Int) + w.damp < 0) := by omega
    have e2 : (w.amp : Int) + w.damp > ((255 : Nat) : Int) := by omega
    rw [if_neg e1, if_pos e2]
    exact ⟨rfl, rfl⟩
  · intro h0
    rw [if_pos h0]
    exact ⟨rfl, rfl⟩
  · split_ifs
    · simp
    · simp
    · simp only
      omega

/-- C11. Single ramp tick on the amplitude.  For a voice with `dscale != 0`,
`time % dscale == 0` and `damp != 0`, one call of `poly_compute` (within
defined behaviour) sets `amp` to `amp + damp` and keeps `damp` when the sum
lies in `[0, 255]`, sets `amp` to 255 and `damp` to 0 when the sum exceeds
255, and sets `amp` to 0 and `damp` to 0 when the sum is negative; the new
amplitude is at most 255. -/
theorem poly_compute_amp_ramp (cfg : poly_cfg) (rand : Nat) (pv : List poly_voice_t)
    (voice : poly_voice_t)
    (hf : cfg.poly_freq ≠ 0) (hr : cfg.RAND_MAX / 512 ≠ 0) (hv : voice_defined pv.length voice)
    (hds : voice.dscale ≠ 0) (htime : voice.time % voice.dscale = 0)
    (hdamp : voice.damp ≠ 0) :
    ∃ voice1, poly_compute cfg rand pv voice = some voice1 ∧
      (0 ≤ (voice.amp : Int) + voice.damp → (voice.amp : Int) + voice.damp ≤ 255 →
        (voice1.amp : Int) = (voice.amp : Int) + voice.damp ∧ voice1.damp = voice.damp) ∧
      ((voice.amp : Int) + voice.damp > 255 → voice1.amp = 255 ∧ voice1.damp = 0) ∧
      ((voice.amp : Int) + voice.damp < 0 → voice1.amp = 0 ∧ voice1.damp = 0) ∧
      voice1.amp ≤ 255 := by
  obtain ⟨amp, x, -, -, hc⟩ := poly_compute_result cfg rand pv voice hf hr hv
  have hdue : ramp_due voice = true := (ramp_due_iff voice).mpr ⟨hds, htime⟩
  obtain ⟨fa, fd, -⟩ := ramp_freq_frame cfg voice
  have hd1 : (ramp_freq cfg voice).damp ≠ 0 := by rw [fd]; exact hdamp
  have key := ramp_amp_cases (ramp_freq cfg voice) hd1
  rw [fa, fd] at key
  have hramp : voice_ramp cfg voice = ramp_amp (ramp_freq cfg voice) := by
    simp [voice_ramp, hdue]
  refine ⟨_, hc, ?_⟩
  simp only [hramp]
  exact key

theorem poly_compute_amp_ramp_witness :
    ∃ voice1, poly_compute pctest_cfg 0 [] { voice_zero with amp := 250, damp := 10, dscale := 1 }
        = some voice1 ∧
      (0 ≤ ((250 : Nat) : Int) + 10 → ((250 : Nat) : Int) + 10 ≤ 255 →
        (voice1.amp : Int) = ((250 : Nat) : Int) + 10 ∧ voice1.damp = 10) ∧
      (((250 : Nat) : Int) + 10 > 255 → voice1.amp = 255 ∧ voice1.damp = 0) ∧
      (((250 : Nat) : Int) + 10 < 0 → voice1.amp = 0 ∧ voice1.damp = 0) ∧
      voice1.amp ≤ 255 :=
  poly_compute_amp_ramp pctest_cfg 0 [] { voice_zero with amp := 250, damp := 10, dscale := 1 }
    (by decide) (by decide) (by decide) (by decide) (by decide) (by decide)

/-- C12. Single ramp tick on the frequency.  For a voice with `dscale != 0`,
`time % dscale == 0` and `dfreq != 0` (the noise sentinel 0xFFFF included),
and a `poly_freq_max` that fits its `uint16_t` type, one call of
`poly_compute` (within defined behaviour) sets `freq` to
`min(max(freq + dfreq, 0), poly_freq_max)`, the sum taken in the integers, so
the new frequency is at most `poly_freq_max`; `dfreq` is unchanged. -/
theorem poly_compute_freq_ramp (cfg : poly_cfg) (rand : Nat) (pv : List poly_voice_t)
    (voice : poly_voice_t)
    (hf : cfg.poly_freq ≠ 0) (hr : cfg.RAND_MAX / 512 ≠ 0) (hv : voice_defined pv.length voice)
    (hmax : cfg.poly_freq_max ≤ UINT16_MAX)
    (hds : voice.dscale ≠ 0) (htime : voice.time % voice.dscale = 0)
    (hdfreq : voice.dfreq ≠ 0) :
    ∃ voice1, poly_compute cfg rand pv voice = some voice1 ∧
      (voice1.freq : Int) = min (max ((voice.freq : Int) + voice.dfreq) 0) (cfg.poly_freq_max : Int) ∧
      voice1.freq ≤ cfg.poly_freq_max ∧
      voice1.dfreq = voice.dfreq := by
  obtain ⟨amp, x, -, -, hc⟩ := poly_compute_result cfg rand pv voice hf hr hv
  have hdue : ramp_due voice = true := (ramp_due_iff voice).mpr ⟨hds, htime⟩
  refine ⟨_, hc, ?_⟩
  have hm : cfg.poly_freq_max ≤ 65535 := hmax
  have key : ((ramp_freq cfg voice).freq : Int)
        = min (max ((voice.freq : Int) + voice.dfreq) 0) (cfg.poly_freq_max : Int) ∧
      (ramp_freq cfg voice).freq ≤ cfg.poly_freq_max := by
    unfold ramp_freq
    simp only [if_pos hdfreq, to_uint16]
    split_ifs <;> simp <;> omega
  obtain ⟨af, ad⟩ := ramp_amp_frame (ramp_freq cfg voice)
  simp only [voice_ramp, hdue, if_true, af, ad, (ramp_freq_frame cfg voice).2.2]
  exact ⟨key.1, key.2, trivial⟩

theorem poly_compute_freq_ramp_witness :
    ∃ voice1, poly_compute pctest_cfg 0 []
        { voice_zero with freq := 65535, dfreq := 5, dscale := 2, time := 4 } = some voice1 ∧
      (voice1.freq : Int)
        = min (max (((65535 : Nat) : Int) + 5) 0) (pctest_cfg.poly_freq_max : Int) ∧
      voice1.freq ≤ pctest_cfg.poly_freq_max ∧
      voice1.dfreq = 5 :=
  poly_compute_freq_ramp pctest_cfg 0 []
    { voice_zero with freq := 65535, dfreq := 5, dscale := 2, time := 4 }
    (by decide) (by decide) (by decide) (by decide) (by decide) (by decide) (by decide)

/-! ## The sample of a voice -/

theorem tone_sample_eq (cfg : poly_cfg) (pv : List poly_voice_t) (voice : poly_voice_t) :
    tone_sample cfg pv voice = (tone_angle cfg pv voice).bind poly_sine := by
  unfold tone_sample tone_angle
  by_cases hf : cfg.poly_freq = 0
  · simp [hf]
  · cases hm : mod_read pv voice.pmod
        (Int.tdiv (angle_scale cfg voice.freq * (voice.time : Int)) (cfg.poly_freq : Int)) with
    | none => simp [hf, hm]
    | some a => simp [hf, hm]

theorem to_uint16_natCast (n : Nat) (h : n < 65536) : to_uint16 (n : Int) = n := by
  unfold to_uint16
  omega

/-- With an `int` wider than 16 bits and phase modulation off, the angle
handed to `poly_sine` is `1440 * freq * time / poly_freq` reduced modulo 1440,
the product being exact. -/
theorem tone_angle_wide (cfg : poly_cfg) (pv : List poly_voice_t) (voice : poly_voice_t)
    (hw : 16 < cfg.int_bits) (hf : cfg.poly_freq ≠ 0) (hp : voice.pmod = 0) :
    tone_angle cfg pv voice = some (1440 * voice.freq * voice.time / cfg.poly_freq % 1440) := by
  have hw2 : ¬ cfg.int_bits ≤ 16 := by omega
  have hlt : 1440 * voice.freq * voice.time / cfg.poly_freq % 1440 < 65536 := by omega
  unfold tone_angle angle_scale mod_read POLY_SINE_SZ
  simp only [if_neg hw2, if_neg hf, hp, ne_eq, not_true_eq_false, if_false,
    Option.bind_eq_bind, Option.some_bind, Option.pure_def]
  rw [← Int.ofNat_mul, ← Int.ofNat_tdiv, ← Int.ofNat_tmod]
  rw [to_uint16_natCast _ (by omega)]

theorem tone_sample_wide (cfg : poly_cfg) (pv : List poly_voice_t) (voice : poly_voice_t)
    (hw : 16 < cfg.int_bits) (hf : cfg.poly_freq ≠ 0) (hp : voice.pmod = 0) :
    tone_sample cfg pv voice = poly_sine (1440 * voice.freq * voice.time / cfg.poly_freq % 1440) := by
  rw [tone_sample_eq, tone_angle_wide cfg pv voice hw hf hp]
  rfl

/-- The sample before clipping of a tone voice (`1 <= freq <= 65534`) without
phase modulation, on a build whose `int` is wider than 16 bits: the sinusoid
at the exact angle times the effective amplitude, shifted right by `ascale`;
0 for a zero effective amplitude. -/
theorem voice_sample_tone_wide (cfg : poly_cfg) (rand : Nat) (pv : List poly_voice_t)
    (voice : poly_voice_t) (amp : Int)
    (hw : 16 < cfg.int_bits) (hf : cfg.poly_freq ≠ 0) (hp : voice.pmod = 0)
    (h1 : 1 ≤ voice.freq) (h2 : voice.freq ≤ 65534) (hs : voice.ascale < 32) :
    voice_sample cfg rand pv voice amp =
      if amp ≠ 0 then
        (poly_sine (1440 * voice.freq * voice.time / cfg.poly_freq % 1440)).map
          (fun y => (y * amp) >>> voice.ascale)
      else some 0 := by
  unfold voice_sample
  have hq : voice.freq ≠ 0 := by omega
  have ht : voice.freq < UINT16_MAX := by unfold UINT16_MAX; omega
  obtain ⟨y, hy⟩ := poly_sine_some (1440 * voice.freq * voice.time / cfg.poly_freq % 1440)
  by_cases ha : amp ≠ 0
  · simp only [if_pos ha, if_pos hq, if_pos ht, tone_sample_wide cfg pv voice hw hf hp, hy, hs,
      Option.bind_eq_bind, Option.some_bind, Option.pure_def, Option.map_some', if_true]
  · simp only [if_neg ha]
    rfl

/-- C16. A noise voice (`freq` 0xFFFF, amplitude 1, no scaling) on the host
build, when `rand()` returns `RAND_MAX`: the raw noise value
`rand() / (RAND_MAX/512) - 256` is 256, and so is the stored sample; 256 is
not in `[-256, 256)`. -/
theorem noise_sample_at_rand_max :
    noise_sample pctest_cfg pctest_cfg.RAND_MAX = some 256 ∧
    poly_compute pctest_cfg pctest_cfg.RAND_MAX [] { voice_zero with amp := 1, freq := 65535 }
      = some { voice_zero with amp := 1, freq := 65535, sample := 256, time := 1 } ∧
    noise_sample avr_cfg avr_cfg.RAND_MAX = some 264 := by
  decide

/-- C17. The voice that `main.c` programs (`freq` 1000, amplitude 255,
`ascale` 8) at `time` 1 on the AVR build, where `int` has 16 bits: the
product `1440 * freq` is reduced modulo 2^16 before the widening, the angle
comes out as 1 and the stored sample is 0; the exact product gives the angle
45 and the sample 48, which is what the build with a 32-bit `int` stores. -/
theorem poly_compute_tone_int16 :
    tone_angle avr_cfg [] { voice_zero with freq := 1000, time := 1, amp := 255, ascale := 8 }
      = some 1 ∧
    poly_compute avr_cfg 0 [] { voice_zero with freq := 1000, time := 1, amp := 255, ascale := 8 }
      = some { voice_zero with freq := 1000, time := 2, amp := 255, ascale := 8, sample := 0 } ∧
    1440 * 1000 * 1 / 32000 % 1440 = 45 ∧
    (poly_sine 45).map (fun y => clip_sample ((y * 255) / 2 ^ 8)) = some 48 ∧
    poly_compute pctest_cfg 0 [] { voice_zero with freq := 1000, time := 1, amp := 255, ascale := 8 }
      = some { voice_zero with freq := 1000, time := 2, amp := 255, ascale := 8, sample := 48 } := by
  decide

/-- C18. A tone voice at `time` 0 on the host build, phase modulated by
channel 1 whose last sample is -1: the base angle is 0, the sum -1 is reduced
by the truncating `%` to -1 and converted to `uint16_t`, so `poly_sine` is
handed 65535, which it reduces to 735 and answers with -16; the angle
congruent to -1 modulo 1440 is 1439, where `poly_sine` is 0. -/
theorem tone_angle_negative :
    tone_angle pctest_cfg
        [{ voice_zero with freq := 1000, amp := 255, pmod := 0x81 },
         { voice_zero with sample := -1 }]
        { voice_zero with freq := 1000, amp := 255, pmod := 0x81 } = some 65535 ∧
    tone_sample pctest_cfg
        [{ voice_zero with freq := 1000, amp := 255, pmod := 0x81 },
         { voice_zero with sample := -1 }]
        { voice_zero with freq := 1000, amp := 255, pmod := 0x81 } = some (-16) ∧
    65535 % 1440 = 735 ∧
    (0 + (-1 : Int)) % 1440 = 1439 ∧
    poly_sine 1439 = some 0 ∧
    poly_compute pctest_cfg 0
        [{ voice_zero with freq := 1000, amp := 255, pmod := 0x81 },
         { voice_zero with sample := -1 }]
        { voice_zero with freq := 1000, amp := 255, pmod := 0x81 }
      = some { voice_zero with
                freq := 1000, amp := 255, pmod := 0x81, sample := -4080, time := 1 } := by
  decide

/-- When the modulated angle is not negative, the value handed to `poly_sine`
is that angle reduced modulo 1440 (wide `int`). -/
theorem tone_angle_nonneg (cfg : poly_cfg) (pv : List poly_voice_t) (voice source : poly_voice_t)
    (hw : 16 < cfg.int_bits) (hf : cfg.poly_freq ≠ 0) (hp : voice.pmod ≠ 0)
    (hsrc : pv[voice.pmod &&& 0x0f]? = some source)
    (hnn : 0 ≤ ((1440 * voice.freq * voice.time / cfg.poly_freq : Nat) : Int) + source.sample) :
    tone_angle cfg pv voice = some
      ((((1440 * voice.freq * voice.time / cfg.poly_freq : Nat) : Int) + source.sample) % 1440).toNat := by
  have hw2 : ¬ cfg.int_bits ≤ 16 := by omega
  unfold tone_angle angle_scale mod_read POLY_SINE_SZ
  simp only [if_neg hw2, if_neg hf, if_pos hp, hsrc, Option.map_some',
    Option.bind_eq_bind, Option.some_bind, Option.pure_def]
  rw [← Int.ofNat_mul, ← Int.ofNat_tdiv]
  rw [Int.tmod_eq_emod hnn (by norm_num)]
  congr 1
  unfold to_uint16
  push_cast
  omega

/-! ## The loop of `poly_next` -/

/-- The channel bit of `poly_next` after `vid` shifts of the `uint16_t` mask. -/
theorem mask_shift (vid : Nat) :
    to_uint16 (((2 ^ vid % 65536) <<< 1 : Nat) : Int) = 2 ^ (vid + 1) % 65536 := by
  have h : to_uint16 (((2 ^ vid % 65536) <<< 1 : Nat) : Int) = ((2 ^ vid % 65536) <<< 1) % 65536 := by
    unfold to_uint16
    omega
  rw [h, Nat.shiftLeft_eq, pow_succ]
  omega

theorem mask_low (vid : Nat) (h : vid < 16) : 2 ^ vid % 65536 = 2 ^ vid := by
  apply Nat.mod_eq_of_lt
  calc 2 ^ vid < 2 ^ 16 := Nat.pow_lt_pow_right (by norm_num) h
    _ = 65536 := by norm_num

theorem mask_high (vid : Nat) (h : 16 ≤ vid) : 2 ^ vid % 65536 = 0 := by
  apply Nat.mod_eq_zero_of_dvd
  have : (65536 : Nat) = 2 ^ 16 := by norm_num
  rw [this]
  exact Nat.pow_dvd_pow 2 h

/-- A channel whose bit is clear in a mask register fails the test
`register & mask`. -/
theorem and_mask_of_testBit_false (x vid : Nat) (h : x.testBit vid = false) :
    x &&& (2 ^ vid % 65536) = 0 := by
  by_cases hv : vid < 16
  · rw [mask_low vid hv]
    apply Nat.eq_of_testBit_eq
    intro i
    rw [Nat.testBit_and, Nat.testBit_two_pow, Nat.zero_testBit]
    by_cases hi : vid = i
    · subst hi
      simp [h]
    · simp [hi]
  · rw [mask_high vid (by omega)]
    simp

/-- For a 16-bit register the test `register & mask` fails exactly for the
channels whose bit is clear. -/
theorem and_mask_eq_zero_iff (x vid : Nat) (hx : x < 65536) :
    x &&& (2 ^ vid % 65536) = 0 ↔ x.testBit vid = false := by
  constructor
  · intro h
    by_cases hv : vid < 16
    · rw [mask_low vid hv] at h
      have h2 : (x &&& 2 ^ vid).testBit vid = false := by rw [h]; simp
      rw [Nat.testBit_and, Nat.testBit_two_pow_self] at h2
      simpa using h2
    · apply Nat.testBit_lt_two_pow
      calc x < 2 ^ 16 := by norm_num; exact hx
        _ ≤ 2 ^ vid := Nat.pow_le_pow_right (by norm_num) (by omega)
  · exact and_mask_of_testBit_false x vid

/-- The voice that `poly_compute` returns is the ramped voice with a new
sample and time, so it has the registers of the voice it was given. -/
theorem poly_compute_regs (cfg : poly_cfg) (rand : Nat) (pv : List poly_voice_t)
    (voice voice1 : poly_voice_t) (h : poly_compute cfg rand pv voice = some voice1) :
    voice_regs voice1 = voice_regs voice := by
  unfold poly_compute at h
  simp only [Option.bind_eq_bind, Option.bind_eq_some, Option.pure_def, Option.some.injEq] at h
  obtain ⟨amp, -, x, -, hv⟩ := h
  obtain ⟨r1, r2, r3, -⟩ := voice_ramp_regs cfg voice
  rw [← hv]
  simp [voice_regs, r1, r2, r3]

/-- What the first half of the loop body does to the array: only element
`vid` can change, and only when the channel passes the enable test; the
registers stay. -/
theorem compute_if_enabled_frame (cfg : poly_cfg) (rand enable mask vid : Nat)
    (pv pv1 : List poly_voice_t)
    (h : compute_if_enabled cfg rand enable mask vid pv = some pv1) :
    pv1.length = pv.length ∧ (∀ i, i ≠ vid → pv1[i]? = pv[i]?) ∧
    (enable &&& mask = 0 → pv1 = pv) ∧
    (∀ i : Nat, (pv1[i]?).map voice_regs = (pv[i]?).map voice_regs) := by
  unfold compute_if_enabled at h
  by_cases he : enable &&& mask ≠ 0
  · rw [if_pos he] at h
    simp only [Option.bind_eq_bind, Option.bind_eq_some, Option.pure_def,
      Option.some.injEq] at h
    obtain ⟨voice, hget, voice1, hc, hset⟩ := h
    have hlt : vid < pv.length := (List.getElem?_eq_some_iff.mp hget).1
    subst hset
    refine ⟨List.length_set _ _ _, ?_, fun h0 => absurd h0 he, ?_⟩
    · intro i hi
      simp [List.getElem?_set, Ne.symm hi]
    · intro i
      by_cases hi : i = vid
      · subst hi
        simp [List.getElem?_set, hlt, hget, poly_compute_regs cfg rand pv voice voice1 hc]
      · simp [List.getElem?_set, Ne.symm hi]
  · rw [if_neg he] at h
    simp only [Option.pure_def, Option.some.injEq] at h
    subst h
    exact ⟨rfl, fun _ _ => rfl, fun _ => rfl, fun _ => rfl⟩

theorem to_int16_add_left (a b : Int) : to_int16 (to_int16 a + b) = to_int16 (a + b) := by
  unfold to_int16
  omega

theorem unmuted_sum_drop (mute vid : Nat) (pv : List poly_voice_t) (voice : poly_voice_t)
    (h : pv[vid]? = some voice) :
    unmuted_sum mute vid (pv.drop vid) =
      (if mute.testBit vid then 0 else voice.sample) + unmuted_sum mute (vid + 1) (pv.drop (vid + 1)) := by
  obtain ⟨hlt, hv⟩ := List.getElem?_eq_some_iff.mp h
  rw [List.drop_eq_getElem_cons hlt, hv]
  rfl

/-- What the loop of `poly_next`, started at channel `vid`, returns: an array
of the same length that agrees with the old one below `vid` and on every
channel whose enable bit is clear, keeps all registers, and, for a 16-bit
muted mask, a tally that is the old tally plus the samples now stored for
the unmuted channels from `vid` on, reduced to `int16_t`. -/
theorem poly_next_loop_spec (cfg : poly_cfg) (rand : Nat → Nat) (enable mute : Nat) :
    ∀ (count vid : Nat) (sample : Int) (pv : List poly_voice_t) (out : Int)
      (pv1 : List poly_voice_t),
      vid + count = pv.length →
      poly_next_loop cfg rand enable mute count vid (2 ^ vid % 65536) sample pv = some (out, pv1) →
      pv1.length = pv.length ∧ (∀ i, i < vid → pv1[i]? = pv[i]?) ∧
      (∀ i, enable.testBit i = false → pv1[i]? = pv[i]?) ∧
      (∀ i : Nat, (pv1[i]?).map voice_regs = (pv[i]?).map voice_regs) ∧
      (mute < 65536 → to_int16 sample = sample →
        out = to_int16 (sample + unmuted_sum mute vid (pv1.drop vid))) := by
  intro count
  induction count with
  | zero =>
    intro vid sample pv out pv1 hlen h
    simp only [poly_next_loop, Option.some.injEq, Prod.mk.injEq] at h
    obtain ⟨h1, h2⟩ := h
    subst h1 h2
    refine ⟨rfl, fun _ _ => rfl, fun _ _ => rfl, fun _ => rfl, ?_⟩
    intro _ hs
    have : List.drop vid pv = [] := List.drop_eq_nil_of_le (by omega)
    rw [this]
    simp [unmuted_sum, hs]
  | succ count ih =>
    intro vid sample pv out pv1 hlen h
    rw [poly_next_loop] at h
    simp only [Option.bind_eq_bind, Option.bind_eq_some] at h
    obtain ⟨pv', h1, sample', h2, h3⟩ := h
    obtain ⟨fl, fo, fe, fr⟩ := compute_if_enabled_frame cfg (rand vid) enable _ vid pv pv' h1
    rw [mask_shift] at h3
    have hvid : vid < pv'.length := by omega
    have hget' : pv'[vid]? = some pv'[vid] := List.getElem?_eq_getElem hvid
    obtain ⟨il, io, ie, ir, iout⟩ := ih (vid + 1) sample' pv' out pv1 (by omega) h3
    have hkeep : pv1[vid]? = pv'[vid]? := io vid (by omega)
    refine ⟨by omega, ?_, ?_, ?_, ?_⟩
    · intro i hi
      rw [io i (by omega), fo i (by omega)]
    · intro i hi
      by_cases hiv : i = vid
      · subst hiv
        rw [hkeep, fe (and_mask_of_testBit_false enable i hi)]
      · rw [ie i hi, fo i hiv]
    · intro i
      rw [ir i, fr i]
    · intro hmute hs
      have hs' : to_int16 sample' = sample' ∧
          sample' = to_int16 (sample + (if mute.testBit vid then 0 else pv'[vid].sample)) := by
        unfold tally_if_unmuted at h2
        by_cases hm : mute &&& (2 ^ vid % 65536) = 0
        · have hb : mute.testBit vid = false := (and_mask_eq_zero_iff mute vid hmute).mp hm
          rw [if_pos hm, hget'] at h2
          simp only [Option.map_some', Option.some.injEq] at h2
          rw [← h2, hb]
          simp only [Bool.false_eq_true, if_false, and_true]
          unfold to_int16
          omega
        · have hb : mute.testBit vid = true := by
            cases hbb : mute.testBit vid with
            | true => rfl
            | false => exact absurd (and_mask_of_testBit_false mute vid hbb) hm
          rw [if_neg hm] at h2
          simp only [Option.pure_def, Option.some.injEq] at h2
          rw [← h2, hb]
          simp only [if_true, add_zero]
          exact ⟨hs, hs.symm⟩
      rw [iout hmute hs'.1, unmuted_sum_drop mute vid pv1 pv'[vid] (by rw [hkeep, hget']), hs'.2,
        to_int16_add_left]
      congr 1
      omega

/-- One call of `poly_next` within defined behaviour, idle or running: it
returns, the state stays within defined behaviour, both masks and the array
length stay, every voice keeps its registers, every voice whose enable bit is
clear is unchanged, and with the countdown running and a 16-bit muted mask
the returned sample is the mix of the samples now stored. -/
theorem poly_next_step (cfg : poly_cfg) (rand : Nat → Nat) (s : poly_state)
    (hdef : run_defined cfg s) :
    ∃ out s1, poly_next cfg rand s = some (out, s1) ∧ run_defined cfg s1 ∧
      s1._poly_enable = s._poly_enable ∧ s1._poly_mute = s._poly_mute ∧
      s1.poly_voice.length = s.poly_voice.length ∧
      (∀ i, s._poly_enable.testBit i = false → s1.poly_voice[i]? = s.poly_voice[i]?) ∧
      (∀ i : Nat, (s1.poly_voice[i]?).map voice_regs = (s.poly_voice[i]?).map voice_regs) ∧
      (s.poly_remain ≠ 0 → s._poly_mute < 65536 →
        out = to_int16 (unmuted_sum s._poly_mute 0 s1.poly_voice)) := by
  by_cases hrun : s.poly_remain = 0
  · exact ⟨0, s, poly_next_idle cfg rand s hrun, hdef, rfl, rfl, rfl, fun _ _ => rfl,
      fun _ => rfl, fun h => absurd hrun h⟩
  · obtain ⟨hf, hr, hv⟩ := hdef
    obtain ⟨out, pv1, h1, hl1, hd1⟩ := poly_next_loop_some cfg rand s._poly_enable s._poly_mute
      hf hr (poly_num_channels s) 0 1 0 s.poly_voice (by simp [poly_num_channels]) hv
    have hspec := poly_next_loop_spec cfg rand s._poly_enable s._poly_mute
      (poly_num_channels s) 0 0 s.poly_voice out pv1 (by simp [poly_num_channels]) h1
    obtain ⟨-, -, he, hreg, hsum⟩ := hspec
    refine ⟨out, { s with poly_voice := pv1, poly_remain := s.poly_remain - 1 }, ?_,
      ⟨hf, hr, hd1⟩, rfl, rfl, hl1, he, hreg, ?_⟩
    · simp [poly_next, hrun, h1]
    · intro _ hm
      have := hsum hm (by decide)
      simpa using this

/-- Any number of calls of `poly_next` within defined behaviour: they all
return, the enabled mask stays, every voice keeps its registers and every
voice whose enable bit is clear is unchanged. -/
theorem poly_next_times_inv (cfg : poly_cfg) (rand : Nat → Nat → Nat) (s : poly_state)
    (hdef : run_defined cfg s) :
    ∀ k, ∃ sk, poly_next_times cfg rand k s = some sk ∧ run_defined cfg sk ∧
      sk._poly_enable = s._poly_enable ∧
      (∀ i, s._poly_enable.testBit i = false → sk.poly_voice[i]? = s.poly_voice[i]?) ∧
      (∀ i : Nat, (sk.poly_voice[i]?).map voice_regs = (s.poly_voice[i]?).map voice_regs) := by
  intro k
  induction k with
  | zero => exact ⟨s, rfl, hdef, rfl, fun _ _ => rfl, fun _ => rfl⟩
  | succ k ih =>
    obtain ⟨sk, hk, hdk, hek, hfk, hrk⟩ := ih
    obtain ⟨out, s1, h1, hd1, he1, -, -, hf1, hr1, -⟩ := poly_next_step cfg (rand k) sk hdk
    refine ⟨s1, by simp [poly_next_times, hk, h1], hd1, by rw [he1, hek], ?_, ?_⟩
    · intro i hi
      rw [hf1 i (by rw [hek]; exact hi), hfk i hi]
    · intro i
      rw [hr1 i, hrk i]

/-- C14. A disabled voice is frozen.  Within defined behaviour (with the
countdown running, and also when it is at 0 and nothing is computed)
`poly_next` returns and every voice whose bit is clear in the enabled mask is
left as it was, field by field.  Consequently, when
channel 0 has amplitude modulation on with source channel 1 and channel 1 is
disabled, then after any number of ticks channel 1 still holds the voice it
held at the start and the amplitude-modulation read of channel 0 adds that
voice's sample. -/
theorem poly_next_disabled_frozen (cfg : poly_cfg) (rand : Nat → Nat → Nat) (s : poly_state)
    (hdef : run_defined cfg s) :
    (∃ out s1, poly_next cfg (rand 0) s = some (out, s1) ∧
      ∀ vid, s._poly_enable.testBit vid = false → s1.poly_voice[vid]? = s.poly_voice[vid]?) ∧
    (∀ voice0 voice1 : poly_voice_t,
      s.poly_voice[0]? = some voice0 → s.poly_voice[1]? = some voice1 →
      voice0.amod ≠ 0 → voice0.amod &&& 0x0f = 1 → s._poly_enable.testBit 1 = false →
      ∀ k, ∃ sk voice0k, poly_next_times cfg rand k s = some sk ∧
        sk.poly_voice[1]? = some voice1 ∧ sk.poly_voice[0]? = some voice0k ∧
        mod_read sk.poly_voice voice0k.amod (voice0k.amp : Int)
          = some ((voice0k.amp : Int) + voice1.sample)) := by
  constructor
  · obtain ⟨out, s1, h1, -, -, -, -, hf, -, -⟩ := poly_next_step cfg (rand 0) s hdef
    exact ⟨out, s1, h1, hf⟩
  · intro voice0 voice1 h0 h1 hamod hsrc hdis k
    obtain ⟨sk, hk, -, -, hfk, hrk⟩ := poly_next_times_inv cfg rand s hdef k
    have hk1 : sk.poly_voice[1]? = some voice1 := by rw [hfk 1 hdis, h1]
    have hr0 := hrk 0
    rw [h0] at hr0
    rcases Option.map_eq_some'.mp hr0 with ⟨voice0k, hk0, hregs⟩
    have ham : voice0k.amod = voice0.amod := by
      have := congrArg Prod.fst hregs
      simpa [voice_regs] using this
    refine ⟨sk, voice0k, hk, hk1, hk0, ?_⟩
    unfold mod_read
    rw [ham, if_pos hamod, hsrc, hk1]
    rfl

theorem poly_next_disabled_frozen_witness :
    ∃ sk voice0k, poly_next_times pctest_cfg (fun _ _ => 0) 3 frozen_state = some sk ∧
      sk.poly_voice[1]? = some { voice_zero with sample := 100, freq := 440, amp := 200 } ∧
      sk.poly_voice[0]? = some voice0k ∧
      mod_read sk.poly_voice voice0k.amod (voice0k.amp : Int)
        = some ((voice0k.amp : Int)
            + ({ voice_zero with sample := 100, freq := 440, amp := 200 } : poly_voice_t).sample) :=
  (poly_next_disabled_frozen pctest_cfg (fun _ _ => 0) frozen_state (by decide)).2
    { voice_zero with amp := 50, amod := 0x81 }
    { voice_zero with sample := 100, freq := 440, amp := 200 }
    (by decide) (by decide) (by decide) (by decide) (by decide) 3

/-! ## The 1 kHz scenario -/

theorem tone_voice_compute (cfg : poly_cfg) (rand k : Nat) (x y : Int)
    (hfreq : cfg.poly_freq = 32000) (hw : 16 < cfg.int_bits) (hk : k < 65535)
    (hy : poly_sine (45 * k % 1440) = some y) :
    poly_compute cfg rand [tone_voice k x] (tone_voice k x)
      = some (tone_voice (k + 1) ((y * 255) >>> (8 : Nat))) := by
  have hf : cfg.poly_freq ≠ 0 := by omega
  have hang : 1440 * 1000 * k / cfg.poly_freq % 1440 = 45 * k % 1440 := by
    rw [hfreq]; omega
  have hs := voice_sample_tone_wide cfg rand [tone_voice k x] (tone_voice k x) 255 hw hf rfl
    (by show (1 : Nat) ≤ 1000; norm_num) (by show (1000 : Nat) ≤ 65534; norm_num)
    (by show (8 : Nat) < 32; norm_num)
  have hfr : (tone_voice k x).freq = 1000 := rfl
  have htm : (tone_voice k x).time = k := rfl
  rw [hfr, htm, hang, hy] at hs
  have hrange := poly_sine_range _ y hy
  have hsh : (y * 255) >>> (8 : Nat) = (y * 255) / 256 := by
    rw [Int.shiftRight_eq_div_pow]; norm_num
  have hclip : clip_sample ((y * 255) >>> (8 : Nat)) = (y * 255) >>> (8 : Nat) := by
    rw [hsh]
    unfold clip_sample INT16_MAX INT16_MIN
    have h1 : ¬ ((y * 255) / 256 > 32767) := by omega
    have h2 : ¬ ((y * 255) / 256 < -32768) := by omega
    rw [if_neg h1, if_neg h2]
  have hramp : voice_ramp cfg (tone_voice k x) = tone_voice k x := by
    simp [voice_ramp, ramp_due, tone_voice, voice_zero]
  have hmod : mod_read [tone_voice k x] (tone_voice k x).amod ((tone_voice k x).amp : Int)
      = some 255 := by
    simp [mod_read, tone_voice, voice_zero]
  have htime : to_uint16 ((k : Int) + 1) = k + 1 := by
    unfold to_uint16; omega
  unfold poly_compute
  rw [hmod]
  simp only [Option.bind_eq_bind, Option.some_bind, hs, hramp]
  have ha : (tone_voice k x).ascale = 8 := rfl
  simp only [ne_eq, show ¬ ((255 : Int) = 0) by norm_num, not_false_eq_true, if_true,
    Option.map_some', Option.some_bind, ha, hclip, htm, htime, Option.pure_def]
  simp [tone_voice, voice_zero]

theorem tone_out_range (y : Int) (h : -254 ≤ y ∧ y ≤ 254) :
    to_int16 ((y * 255) >>> (8 : Nat)) = (y * 255) >>> (8 : Nat) := by
  have hsh : (y * 255) >>> (8 : Nat) = (y * 255) / 256 := by
    rw [Int.shiftRight_eq_div_pow]; norm_num
  rw [hsh]
  unfold to_int16
  omega

/-- One tick of the 1 kHz scenario: call number `k` returns the sinusoid at
`45 * k` quarter degrees, times 255, shifted right by 8. -/
theorem tone_next (cfg : poly_cfg) (rand : Nat → Nat) (k : Nat) (x y : Int)
    (hfreq : cfg.poly_freq = 32000) (hw : 16 < cfg.int_bits) (hk : k < 32000)
    (hy : poly_sine (45 * k % 1440) = some y) :
    poly_next cfg rand (tone_state k x)
      = some ((y * 255) >>> (8 : Nat), tone_state (k + 1) ((y * 255) >>> (8 : Nat))) := by
  have hc := tone_voice_compute cfg (rand 0) k x y hfreq hw (by omega) hy
  have hr := tone_out_range y (poly_sine_range _ y hy)
  have hrem : (32000 - k = 0) = False := by
    apply propext; constructor
    · intro h; omega
    · intro h; exact h.elim
  have hrem2 : 32000 - k - 1 = 32000 - (k + 1) := by omega
  simp only [poly_next, tone_state, poly_num_channels, List.length_singleton, hrem, if_false,
    poly_next_loop, compute_if_enabled, tally_if_unmuted]
  have hsm : (tone_voice (k + 1) ((y * 255) >>> (8 : Nat))).sample = (y * 255) >>> (8 : Nat) := rfl
  simp [hc, hr, hrem2, hsm]

/-- The state of the 1 kHz scenario after `k` calls, for `k` up to 32000. -/
theorem tone_times (cfg : poly_cfg) (rand : Nat → Nat → Nat)
    (hfreq : cfg.poly_freq = 32000) (hw : 16 < cfg.int_bits) :
    ∀ k, k ≤ 32000 → ∃ x, poly_next_times cfg rand k (tone_state 0 0) = some (tone_state k x) := by
  intro k
  induction k with
  | zero => exact fun _ => ⟨0, rfl⟩
  | succ k ih =>
    intro hk
    obtain ⟨x, hx⟩ := ih (by omega)
    obtain ⟨y, hy⟩ := poly_sine_some (45 * k % 1440)
    refine ⟨(y * 255) >>> (8 : Nat), ?_⟩
    simp [poly_next_times, hx, tone_next cfg (rand k) k x y hfreq hw (by omega) hy]

/-- After the 32000th call the scenario stays in its idle state. -/
theorem tone_times_after (cfg : poly_cfg) (rand : Nat → Nat → Nat)
    (hfreq : cfg.poly_freq = 32000) (hw : 16 < cfg.int_bits) :
    ∃ x, ∀ k, 32000 ≤ k → poly_next_times cfg rand k (tone_state 0 0) = some (tone_state 32000 x) := by
  obtain ⟨x, hx⟩ := tone_times cfg rand hfreq hw 32000 (le_refl _)
  refine ⟨x, ?_⟩
  intro k hk
  induction k with
  | zero => omega
  | succ k ih =>
    by_cases h : k + 1 = 32000
    · rw [h]; exact hx
    · have hk' := ih (by omega)
      have hidle : (tone_state 32000 x).poly_remain = 0 := rfl
      simp [poly_next_times, hk', poly_next_idle cfg (rand k) _ hidle]

/-- The 1 kHz scenario on a build whose `int` is wider than 16 bits, with one
channel and `poly_freq` 32000.  From the reset state the events IFREQ 1000,
IAMP 255, ASCALE 8, ENABLE 1, TIME 32000 are all accepted (return value 0);
call number `k` of `poly_next`, for `k` from 0 to 31999, returns
`(poly_sine(45 * k mod 1440) * 255) >> 8`, so the output repeats every 32
calls; every call from number 32000 on returns 0. -/
theorem poly_tone_scenario (cfg : poly_cfg) (rand : Nat → Nat → Nat)
    (hfreq : cfg.poly_freq = 32000) (hw : 16 < cfg.int_bits) :
    ∃ s5, poly_load_all tone_reset tone_events = some ([0, 0, 0, 0, 0], s5) ∧
      (∀ k, k < 32000 → ∃ y, poly_sine (45 * k % 1440) = some y ∧
        poly_next_out cfg rand k s5 = some ((y * 255) >>> (8 : Nat))) ∧
      (∀ k, k + 32 < 32000 → poly_next_out cfg rand (k + 32) s5 = poly_next_out cfg rand k s5) ∧
      (∀ k, 32000 ≤ k → poly_next_out cfg rand k s5 = some 0) := by
  have hout : ∀ k, k < 32000 → ∃ y, poly_sine (45 * k % 1440) = some y ∧
      poly_next_out cfg rand k (tone_state 0 0) = some ((y * 255) >>> (8 : Nat)) := by
    intro k hk
    obtain ⟨x, hx⟩ := tone_times cfg rand hfreq hw k (by omega)
    obtain ⟨y, hy⟩ := poly_sine_some (45 * k % 1440)
    refine ⟨y, hy, ?_⟩
    simp [poly_next_out, hx, tone_next cfg (rand k) k x y hfreq hw hk hy]
  refine ⟨tone_state 0 0, by decide, hout, ?_, ?_⟩
  · intro k hk
    obtain ⟨y, hy, h1⟩ := hout k (by omega)
    obtain ⟨y2, hy2, h2⟩ := hout (k + 32) hk
    have hper : 45 * (k + 32) % 1440 = 45 * k % 1440 := by omega
    rw [hper, hy] at hy2
    cases hy2
    rw [h1, h2]
  · intro k hk
    obtain ⟨x, hx⟩ := tone_times_after cfg rand hfreq hw
    have hidle : (tone_state 32000 x).poly_remain = 0 := rfl
    simp [poly_next_out, hx k hk, poly_next_idle cfg (rand k) _ hidle]

theorem poly_tone_scenario_witness :
    ∃ s5, poly_load_all tone_reset tone_events = some ([0, 0, 0, 0, 0], s5) ∧
      (∀ k, k < 32000 → ∃ y, poly_sine (45 * k % 1440) = some y ∧
        poly_next_out pctest_cfg (fun _ _ => 0) k s5 = some ((y * 255) >>> (8 : Nat))) ∧
      (∀ k, k + 32 < 32000 →
        poly_next_out pctest_cfg (fun _ _ => 0) (k + 32) s5
          = poly_next_out pctest_cfg (fun _ _ => 0) k s5) ∧
      (∀ k, 32000 ≤ k → poly_next_out pctest_cfg (fun _ _ => 0) k s5 = some 0) :=
  poly_tone_scenario pctest_cfg (fun _ _ => 0) (by decide) (by decide)

/-- C15. The 1 kHz scenario on the AVR build of `main.c`, where `int` has 16
bits: from the reset state of a one-channel engine the events IFREQ 1000,
IAMP 255, ASCALE 8, ENABLE 1, TIME 32000 are all accepted, and call number 1
of `poly_next` returns 0, because `1440 * 1000` is reduced modulo 2^16 to
63744 and the angle comes out as 1; the scenario asks for
`(poly_sine(45) * 255) >> 8`, which is 48 and is what the build with a 32-bit
`int` returns. -/
theorem poly_tone_scenario_int16 :
    poly_load_all tone_reset tone_events = some ([0, 0, 0, 0, 0], tone_state 0 0) ∧
    poly_next_times avr_cfg (fun _ _ => 0) 1 (tone_state 0 0) = some (tone_state 1 0) ∧
    tone_angle avr_cfg [tone_voice 1 0] (tone_voice 1 0) = some 1 ∧
    poly_next_out avr_cfg (fun _ _ => 0) 1 (tone_state 0 0) = some 0 ∧
    (poly_sine (45 * 1 % 1440)).map (fun (y : Int) => (y * 255) >>> (8 : Nat)) = some 48 ∧
    poly_next_out pctest_cfg (fun _ _ => 0) 1 (tone_state 0 0) = some 48 := by
  decide

/-! ## Invariants of the reachable states -/

set_option maxRecDepth 512

/-- A call of `poly_next` that returns keeps the array length and every
voice's modulation and scale registers. -/
theorem poly_next_regs (cfg : poly_cfg) (rand : Nat → Nat) (s s1 : poly_state) (out : Int)
    (h : poly_next cfg rand s = some (out, s1)) :
    s1.poly_voice.length = s.poly_voice.length ∧
    (∀ i : Nat, (s1.poly_voice[i]?).map voice_regs = (s.poly_voice[i]?).map voice_regs) := by
  unfold poly_next at h
  by_cases hrun : s.poly_remain = 0
  · rw [if_pos hrun] at h
    simp only [Option.some.injEq, Prod.mk.injEq] at h
    rw [← h.2]
    exact ⟨rfl, fun _ => rfl⟩
  · rw [if_neg hrun] at h
    simp only [Option.bind_eq_bind, Option.bind_eq_some, Option.pure_def, Option.some.injEq,
      Prod.mk.injEq] at h
    obtain ⟨⟨x, pv1⟩, hloop, -, hs1⟩ := h
    obtain ⟨hl, -, -, hr, -⟩ := poly_next_loop_spec cfg rand s._poly_enable s._poly_mute
      (poly_num_channels s) 0 0 s.poly_voice x pv1 (by simp [poly_num_channels]) hloop
    rw [← hs1]
    exact ⟨hl, hr⟩

/-- A property of the registers that holds for every voice of an array holds
for every voice of an array with the same registers index by index. -/
theorem regs_transfer (P : Nat × Nat × Nat → Prop) (pv pv1 : List poly_voice_t)
    (hr : ∀ i : Nat, (pv1[i]?).map voice_regs = (pv[i]?).map voice_regs)
    (hP : ∀ v ∈ pv, P (voice_regs v)) : ∀ v ∈ pv1, P (voice_regs v) := by
  intro v hv
  obtain ⟨i, hi, hget⟩ := List.getElem_of_mem hv
  have h1 : pv1[i]? = some v := by rw [List.getElem?_eq_getElem hi, hget]
  have h2 := hr i
  rw [h1] at h2
  rcases Option.map_eq_some'.mp h2.symm with ⟨w, hw, hregs⟩
  have hmem : w ∈ pv := by
    obtain ⟨hj, hwe⟩ := List.getElem?_eq_some_iff.mp hw
    exact hwe ▸ List.getElem_mem hj
  have := hP w hmem
  rw [hregs] at this
  exact this

/-- A store through the voice pointer keeps the array length and any property
of voices that the stored update keeps. -/
theorem voice_store_all (P : poly_voice_t → Prop) (s s1 : poly_state) (ch : Nat)
    (f : poly_voice_t → poly_voice_t) (r : Int)
    (h : voice_store s ch f = some (r, s1))
    (hf : ∀ v, P v → P (f v)) (hP : ∀ v ∈ s.poly_voice, P v) :
    s1.poly_voice.length = s.poly_voice.length ∧ ∀ v ∈ s1.poly_voice, P v := by
  unfold voice_store at h
  cases hv : s.poly_voice[ch]? with
  | none => simp [hv] at h
  | some voice =>
    simp only [hv, Option.some.injEq, Prod.mk.injEq] at h
    rw [← h.2]
    refine ⟨List.length_set _ _ _, ?_⟩
    intro v hmem
    have hvm : voice ∈ s.poly_voice := by
      obtain ⟨hj, hwe⟩ := List.getElem?_eq_some_iff.mp hv
      exact hwe ▸ List.getElem_mem hj
    rcases List.mem_or_eq_of_mem_set hmem with h1 | h1
    · exact hP v h1
    · rw [h1]; exact hf voice (hP voice hvm)

/-- What `poly_load` can do to the registers of the voices: END clears them,
PMOD and AMOD write their own source register, ASCALE writes a scale of at
most 31, everything else leaves them.  A property of the registers that
survives these writes survives `poly_load`; the array length stays. -/
theorem poly_load_regs (P : Nat × Nat × Nat → Prop) (s s1 : poly_state) (event : poly_evt_t)
    (r : Int) (h : poly_load s event = some (r, s1))
    (hzero : P (0, 0, 0))
    (hpmod : evt_type event = POLY_EVT_TYPE_PMOD → ∀ a p sc, P (a, p, sc) →
      P (a, if event.value = UINT16_MAX then 0 else (event.value ||| 0x80) % 256, sc))
    (hamod : evt_type event = POLY_EVT_TYPE_AMOD → ∀ a p sc, P (a, p, sc) →
      P (if event.value = UINT16_MAX then 0 else (event.value ||| 0x80) % 256, p, sc))
    (hascale : evt_type event = POLY_EVT_TYPE_ASCALE → event.value ≤ 31 →
      ∀ a p sc, P (a, p, sc) → P (a, p, event.value))
    (hP : ∀ v ∈ s.poly_voice, P (voice_regs v)) :
    s1.poly_voice.length = s.poly_voice.length ∧ ∀ v ∈ s1.poly_voice, P (voice_regs v) := by
  obtain ⟨n, hn, -, ht⟩ := evt_type_nibble event
  have hreset : ∀ v ∈ (poly_reset s).poly_voice, P (voice_regs v) := by
    intro v hv
    have : v = voice_zero := List.eq_of_mem_replicate hv
    rw [this]
    exact hzero
  have hresetlen : (poly_reset s).poly_voice.length = s.poly_voice.length := by
    simp [poly_reset, poly_num_channels]
  by_cases hrem : s.poly_remain = 0 <;> interval_cases n <;>
    simp [poly_load, ht, hrem] at h
  all_goals first
    | (have htp : evt_type event = POLY_EVT_TYPE_PMOD := by rw [ht]; decide
       by_cases hv : event.value = UINT16_MAX
       · rw [if_pos hv] at h
         refine voice_store_all (fun v => P (voice_regs v)) s s1 _ _ r h ?_ hP
         intro v hq
         have := hpmod htp v.amod v.pmod v.ascale hq
         rw [if_pos hv] at this
         exact this
       · rw [if_neg hv] at h
         refine voice_store_all (fun v => P (voice_regs v)) s s1 _ _ r h ?_ hP
         intro v hq
         have := hpmod htp v.amod v.pmod v.ascale hq
         rw [if_neg hv] at this
         simpa [voice_regs, to_uint8_natCast] using this)
    | (have htp : evt_type event = POLY_EVT_TYPE_AMOD := by rw [ht]; decide
       by_cases hv : event.value = UINT16_MAX
       · rw [if_pos hv] at h
         refine voice_store_all (fun v => P (voice_regs v)) s s1 _ _ r h ?_ hP
         intro v hq
         have := hamod htp v.amod v.pmod v.ascale hq
         rw [if_pos hv] at this
         exact this
       · rw [if_neg hv] at h
         refine voice_store_all (fun v => P (voice_regs v)) s s1 _ _ r h ?_ hP
         intro v hq
         have := hamod htp v.amod v.pmod v.ascale hq
         rw [if_neg hv] at this
         simpa [voice_regs, to_uint8_natCast] using this)
    | (have htp : evt_type event = POLY_EVT_TYPE_ASCALE := by rw [ht]; decide
       by_cases hv : 31 < event.value
       · rw [if_pos hv] at h
         simp only [Option.some.injEq, Prod.mk.injEq] at h
         rw [← h.2]
         exact ⟨rfl, hP⟩
       · rw [if_neg hv] at h
         refine voice_store_all (fun v => P (voice_regs v)) s s1 _ _ r h ?_ hP
         intro v hq
         have := hascale htp (by omega) v.amod v.pmod v.ascale hq
         have hm : event.value % 256 = event.value := by omega
         simpa [voice_regs, to_uint8_natCast, hm] using this)
    | (obtain ⟨-, h2⟩ := h
       first
         | (rw [← h2]; exact ⟨hresetlen, hreset⟩)
         | (rw [← h2]; exact ⟨rfl, hP⟩))
    | (refine voice_store_all (fun v => P (voice_regs v)) s s1 _ _ r h ?_ hP
       intro v hv
       simpa only [voice_regs] using hv)

/-- A property of the registers that holds for cleared voices and survives
the register writes of the loaded events holds for every voice of every
reachable state; the array keeps its `n` elements. -/
theorem reachable_regs (P : Nat × Nat × Nat → Prop) (cfg : poly_cfg) (n : Nat)
    (ok : poly_evt_t → Prop) (hzero : P (0, 0, 0))
    (hpmod : ∀ event, ok event → evt_type event = POLY_EVT_TYPE_PMOD → ∀ a p sc, P (a, p, sc) →
      P (a, if event.value = UINT16_MAX then 0 else (event.value ||| 0x80) % 256, sc))
    (hamod : ∀ event, ok event → evt_type event = POLY_EVT_TYPE_AMOD → ∀ a p sc, P (a, p, sc) →
      P (if event.value = UINT16_MAX then 0 else (event.value ||| 0x80) % 256, p, sc))
    (hascale : ∀ event, ok event → evt_type event = POLY_EVT_TYPE_ASCALE → event.value ≤ 31 →
      ∀ a p sc, P (a, p, sc) → P (a, p, event.value))
    (s : poly_state) (h : reachable cfg n ok s) :
    s.poly_voice.length = n ∧ ∀ v ∈ s.poly_voice, P (voice_regs v) := by
  induction h with
  | reset =>
    refine ⟨by simp [reset_state], ?_⟩
    intro v hv
    have : v = voice_zero := List.eq_of_mem_replicate hv
    rw [this]
    exact hzero
  | load s s1 event r _ hok hl ih =>
    obtain ⟨h1, h2⟩ := poly_load_regs P s s1 event r hl hzero (hpmod event hok)
      (hamod event hok) (hascale event hok) ih.2
    exact ⟨by rw [h1, ih.1], h2⟩
  | next s s1 rand out _ hn ih =>
    obtain ⟨h1, h2⟩ := poly_next_regs cfg rand s s1 out hn
    exact ⟨by rw [h1, ih.1], regs_transfer P s.poly_voice s1.poly_voice h2 ih.2⟩

/-- C20, as the claim states it, fails: on the host engine with 8 channels an
AMOD event with value 9 is accepted from the reset state and leaves channel 0
with amplitude modulation on and source channel 9, outside the array; after
ENABLE 1 and TIME 1 the read of that source by `poly_next` is outside the
array. -/
theorem amod_source_outside_array :
    reachable pctest_cfg 8 (fun _ => True) amod9_state ∧ amod9_state.poly_voice.length = 8 ∧
    (∃ voice, amod9_state.poly_voice[0]? = some voice ∧ voice.amod ≠ 0 ∧
      voice.amod &&& 0x0f = 9 ∧ ¬ sources_valid 8 voice) ∧
    ∃ s1 s2, poly_load amod9_state ⟨0x2000, 1⟩ = some (0, s1) ∧
      poly_load s1 ⟨0x1000, 1⟩ = some (0, s2) ∧
      poly_next pctest_cfg (fun _ => 0) s2 = none :=
  ⟨reachable.load (reset_state 8) amod9_state ⟨0xa000, 9⟩ 0 reachable.reset trivial (by decide),
    by decide,
    ⟨{ voice_zero with amod := 0x89 }, by decide, by decide, by decide, by decide⟩,
    { amod9_state with _poly_enable := 1 },
    { amod9_state with _poly_enable := 1, poly_remain := 1 },
    by decide, by decide, by decide⟩

/-- C20 (amended). In every state that an engine with `n` channels reaches
from the reset state by `poly_load` and `poly_next` calls in which every PMOD
and AMOD event carries the sentinel 0xFFFF or a value whose low nibble is
below `n`, the array has `n` voices and each voice's phase and amplitude
modulation source is disabled or selects a channel below `n`. -/
theorem reachable_sources_valid (cfg : poly_cfg) (n : Nat) (s : poly_state)
    (h : reachable cfg n (evt_source_ok n) s) :
    s.poly_voice.length = n ∧ ∀ voice ∈ s.poly_voice, sources_valid n voice := by
  have key := reachable_regs
    (fun t => (t.2.1 = 0 ∨ t.2.1 &&& 0x0f < n) ∧ (t.1 = 0 ∨ t.1 &&& 0x0f < n))
    cfg n (evt_source_ok n) ⟨Or.inl rfl, Or.inl rfl⟩ ?_ ?_ ?_ s h
  · exact key
  · intro event hok ht a p sc hq
    refine ⟨?_, hq.2⟩
    by_cases hv : event.value = UINT16_MAX
    · left; simp [hv]
    · right
      simp only [if_neg hv]
      rw [or_0x80_low_nibble]
      rcases hok (Or.inl ht) with h1 | h1
      · exact absurd h1 hv
      · exact h1
  · intro event hok ht a p sc hq
    refine ⟨hq.1, ?_⟩
    by_cases hv : event.value = UINT16_MAX
    · left; simp [hv]
    · right
      simp only [if_neg hv]
      rw [or_0x80_low_nibble]
      rcases hok (Or.inr ht) with h1 | h1
      · exact absurd h1 hv
      · exact h1
  · intro event _ _ _ a p sc hq
    exact hq

theorem reachable_sources_valid_witness :
    amod7_state.poly_voice.length = 8 ∧ ∀ voice ∈ amod7_state.poly_voice, sources_valid 8 voice :=
  reachable_sources_valid pctest_cfg 8 amod7_state
    (reachable.load (reset_state 8) amod7_state ⟨0xa000, 7⟩ 0 reachable.reset
      (by decide) (by decide))

/-- C21. In every state reachable from the reset state by any sequence of
`poly_load` and `poly_next` calls, with events of any type and value, every
voice's `ascale` is at most 31, so the right shift of `poly_compute` is by
fewer than 32 bits. -/
theorem reachable_ascale (cfg : poly_cfg) (n : Nat) (s : poly_state)
    (h : reachable cfg n (fun _ => True) s) :
    ∀ voice ∈ s.poly_voice, voice.ascale ≤ 31 ∧ voice.ascale < 32 := by
  have key := reachable_regs (fun t => t.2.2 ≤ 31) cfg n (fun _ => True)
    (by norm_num) (fun _ _ _ _ _ _ hq => hq) (fun _ _ _ _ _ _ hq => hq)
    (fun _ _ _ hv _ _ _ _ => hv) s h
  intro voice hv
  have := key.2 voice hv
  have h2 : voice.ascale ≤ 31 := this
  exact ⟨h2, by omega⟩

theorem reachable_ascale_witness :
    ({ voice_zero with ascale := 31 } : poly_voice_t).ascale ≤ 31 ∧
    ({ voice_zero with ascale := 31 } : poly_voice_t).ascale < 32 :=
  reachable_ascale pctest_cfg 2 ascale31_state
    (reachable.load (reset_state 2) ascale31_state ⟨0xb100, 31⟩ 0 reachable.reset trivial
      (by decide))
    { voice_zero with ascale := 31 } (by decide)

/-! ## Order of the modulation reads within one tick -/

/-- A channel below 16 whose bit is set in a mask register passes the test
`register & mask`. -/
theorem and_mask_of_testBit_true (x vid : Nat) (hv : vid < 16) (h : x.testBit vid = true) :
    x &&& (2 ^ vid % 65536) ≠ 0 := by
  rw [mask_low vid hv]
  intro h0
  have h2 : (x &&& 2 ^ vid).testBit vid = false := by rw [h0]; simp
  rw [Nat.testBit_and, Nat.testBit_two_pow_self, h] at h2
  simp at h2

/-- For every channel `i` that the loop of `poly_next` still has to visit,
the array as it is when the loop reaches `i`: it agrees with the array at the
start from `i` on and on disabled channels, with the final array below `i`,
and the loop body applied to it yields the final voice of channel `i`. -/
theorem poly_next_loop_order (cfg : poly_cfg) (rand : Nat → Nat) (enable mute : Nat) :
    ∀ (count vid : Nat) (sample : Int) (pv : List poly_voice_t) (out : Int)
      (pv1 : List poly_voice_t),
      vid + count = pv.length →
      poly_next_loop cfg rand enable mute count vid (2 ^ vid % 65536) sample pv = some (out, pv1) →
      ∀ i, vid ≤ i → i < pv.length →
        ∃ pvi pvi1, (∀ j, i ≤ j → pvi[j]? = pv[j]?) ∧
          (∀ j, enable.testBit j = false → pvi[j]? = pv[j]?) ∧
          (∀ j, j < i → pvi[j]? = pv1[j]?) ∧
          compute_if_enabled cfg (rand i) enable (2 ^ i % 65536) i pvi = some pvi1 ∧
          pvi1[i]? = pv1[i]? := by
  intro count
  induction count with
  | zero =>
    intro vid sample pv out pv1 hlen _ i hi hlt
    omega
  | succ count ih =>
    intro vid sample pv out pv1 hlen h i hi hlt
    have hwhole := poly_next_loop_spec cfg rand enable mute (count + 1) vid sample pv out pv1 hlen h
    rw [poly_next_loop] at h
    simp only [Option.bind_eq_bind, Option.bind_eq_some] at h
    obtain ⟨pv', h1, sample', h2, h3⟩ := h
    obtain ⟨fl, fo, fe, -⟩ := compute_if_enabled_frame cfg (rand vid) enable _ vid pv pv' h1
    rw [mask_shift] at h3
    have hrest := poly_next_loop_spec cfg rand enable mute count (vid + 1) sample' pv' out pv1
      (by omega) h3
    by_cases hiv : i = vid
    · subst hiv
      refine ⟨pv, pv', fun _ _ => rfl, fun _ _ => rfl, ?_, h1, ?_⟩
      · intro j hj
        rw [hwhole.2.1 j hj]
      · rw [hrest.2.1 i (by omega)]
    · obtain ⟨pvi, pvi1, a1, a2, a3, a4, a5⟩ := ih (vid + 1) sample' pv' out pv1 (by omega) h3 i
        (by omega) (by omega)
      refine ⟨pvi, pvi1, ?_, ?_, a3, a4, a5⟩
      · intro j hj
        rw [a1 j hj, fo j (by omega)]
      · intro j hj
        by_cases hjv : j = vid
        · subst hjv
          rw [a2 j hj, fe (and_mask_of_testBit_false enable j hj)]
        · rw [a2 j hj, fo j hjv]

/-- C22. Modulation read ordering within one tick.  In a call of `poly_next`
with the countdown running, an enabled channel `i` is computed by
`poly_compute` on an array that holds, for a channel `j`, the voice from
before the call when `j >= i` (so also when `j == i`) or when `j` is
disabled, and the voice as left by this same call when `j < i`; its
amplitude and phase modulation reads take the sample of the source channel
from that array. -/
theorem poly_next_read_order (cfg : poly_cfg) (rand : Nat → Nat) (s s1 : poly_state) (out : Int)
    (i : Nat) (hrun : 0 < s.poly_remain)
    (hnext : poly_next cfg rand s = some (out, s1))
    (hi : i < s.poly_voice.length) (hi16 : i < 16) (hen : s._poly_enable.testBit i = true) :
    ∃ pvi voice voice1, pvi[i]? = some voice ∧
      poly_compute cfg (rand i) pvi voice = some voice1 ∧ s1.poly_voice[i]? = some voice1 ∧
      (∀ j, i ≤ j → pvi[j]? = s.poly_voice[j]?) ∧
      (∀ j, s._poly_enable.testBit j = false → pvi[j]? = s.poly_voice[j]?) ∧
      (∀ j, j < i → pvi[j]? = s1.poly_voice[j]?) ∧
      (∀ acc, mod_read pvi voice.amod acc =
        if voice.amod ≠ 0 then
          ((if voice.amod &&& 0x0f < i ∧ s._poly_enable.testBit (voice.amod &&& 0x0f) = true
              then s1.poly_voice else s.poly_voice)[voice.amod &&& 0x0f]?).map
            (fun source => acc + source.sample)
        else some acc) ∧
      (∀ acc, mod_read pvi voice.pmod acc =
        if voice.pmod ≠ 0 then
          ((if voice.pmod &&& 0x0f < i ∧ s._poly_enable.testBit (voice.pmod &&& 0x0f) = true
              then s1.poly_voice else s.poly_voice)[voice.pmod &&& 0x0f]?).map
            (fun source => acc + source.sample)
        else some acc) := by
  have hrun' : s.poly_remain ≠ 0 := Nat.pos_iff_ne_zero.mp hrun
  unfold poly_next at hnext
  rw [if_neg hrun'] at hnext
  simp only [Option.bind_eq_bind, Option.bind_eq_some, Option.pure_def, Option.some.injEq,
    Prod.mk.injEq] at hnext
  obtain ⟨⟨x, pv1⟩, hloop, -, hs1⟩ := hnext
  have hpv1 : s1.poly_voice = pv1 := by rw [← hs1]
  obtain ⟨pvi, pvi1, a1, a2, a3, a4, a5⟩ := poly_next_loop_order cfg rand s._poly_enable
    s._poly_mute (poly_num_channels s) 0 0 s.poly_voice x pv1 (by simp [poly_num_channels])
    hloop i (by omega) hi
  have hmask := and_mask_of_testBit_true s._poly_enable i hi16 hen
  unfold compute_if_enabled at a4
  rw [if_pos hmask] at a4
  simp only [Option.bind_eq_bind, Option.bind_eq_some, Option.pure_def,
    Option.some.injEq] at a4
  obtain ⟨voice, hget, voice1, hc, hset⟩ := a4
  have hlt : i < pvi.length := (List.getElem?_eq_some_iff.mp hget).1
  have hfin : s1.poly_voice[i]? = some voice1 := by
    rw [hpv1, ← a5, ← hset]
    simp [List.getElem?_set, hlt]
  have hread : ∀ src acc, mod_read pvi src acc =
      if src ≠ 0 then
        ((if src &&& 0x0f < i ∧ s._poly_enable.testBit (src &&& 0x0f) = true
            then s1.poly_voice else s.poly_voice)[src &&& 0x0f]?).map
          (fun source => acc + source.sample)
      else some acc := by
    intro src acc
    unfold mod_read
    by_cases hs : src ≠ 0
    · rw [if_pos hs, if_pos hs]
      by_cases hc1 : src &&& 0x0f < i ∧ s._poly_enable.testBit (src &&& 0x0f) = true
      · rw [if_pos hc1, a3 _ hc1.1, hpv1]
      · rw [if_neg hc1]
        by_cases hlt2 : src &&& 0x0f < i
        · have hdis : s._poly_enable.testBit (src &&& 0x0f) = false := by
            cases hb : s._poly_enable.testBit (src &&& 0x0f) with
            | false => rfl
            | true => exact absurd ⟨hlt2, hb⟩ hc1
          rw [a2 _ hdis]
        · rw [a1 _ (by omega)]
    · rw [if_neg hs, if_neg hs]
  refine ⟨pvi, voice, voice1, hget, hc, hfin, a1, a2, ?_, hread voice.amod, hread voice.pmod⟩
  intro j hj
  rw [a3 j hj, hpv1]

theorem poly_next_read_order_witness :
    ∃ pvi voice voice1, pvi[1]? = some voice ∧
      poly_compute pctest_cfg 0 pvi voice = some voice1 ∧
      order_state1.poly_voice[1]? = some voice1 ∧
      (∀ j, 1 ≤ j → pvi[j]? = order_state.poly_voice[j]?) ∧
      (∀ j, order_state._poly_enable.testBit j = false → pvi[j]? = order_state.poly_voice[j]?) ∧
      (∀ j, j < 1 → pvi[j]? = order_state1.poly_voice[j]?) ∧
      (∀ acc, mod_read pvi voice.amod acc =
        if voice.amod ≠ 0 then
          ((if voice.amod &&& 0x0f < 1 ∧
                order_state._poly_enable.testBit (voice.amod &&& 0x0f) = true
              then order_state1.poly_voice else order_state.poly_voice)[voice.amod &&& 0x0f]?).map
            (fun source => acc + source.sample)
        else some acc) ∧
      (∀ acc, mod_read pvi voice.pmod acc =
        if voice.pmod ≠ 0 then
          ((if voice.pmod &&& 0x0f < 1 ∧
                order_state._poly_enable.testBit (voice.pmod &&& 0x0f) = true
              then order_state1.poly_voice else order_state.poly_voice)[voice.pmod &&& 0x0f]?).map
            (fun source => acc + source.sample)
        else some acc) :=
  poly_next_read_order pctest_cfg (fun _ => 0) order_state order_state1 11 1 (by decide)
    (by decide) (by decide) (by decide) (by decide)

/-! ## The amplitude ramp over many ticks -/

theorem ceil_div_succ (n s : Nat) (hs : 1 ≤ s) :
    (n + 1 + s - 1) / s = (n + s - 1) / s + (if n % s = 0 then 1 else 0) := by
  have e : n + 1 + s - 1 = (n + s - 1) + 1 := by omega
  rw [e, Nat.succ_div]
  have e2 : n + s - 1 + 1 = n + s := by omega
  rw [e2]
  have : (s ∣ n + s) ↔ n % s = 0 := by
    rw [Nat.dvd_add_self_right, Nat.dvd_iff_mod_eq_zero]
  simp only [this]

/-- The ramps leave the ramp interval of a voice alone. -/
theorem voice_ramp_dscale (cfg : poly_cfg) (voice : poly_voice_t) :
    (voice_ramp cfg voice).dscale = voice.dscale := by
  unfold voice_ramp ramp_amp ramp_freq
  simp only
  split_ifs <;> simp

/-- The amplitude and step after one call of `poly_compute`, from the
amplitude `A` and step `D` before, for a voice whose amplitude follows the
linear ramp `t` with slope `d`: the ramp advances by `d` on a due tick. -/
theorem ramp_amp_step (w : poly_voice_t) (t d : Int)
    (hA : (w.amp : Int) = max 0 (min 255 t))
    (hD : w.damp = if t < 0 ∨ t > 255 then 0 else d)
    (hup : t > 255 → d > 0) (hdown : t < 0 → d < 0) :
    ((ramp_amp w).amp : Int) = max 0 (min 255 (t + d)) ∧
    (ramp_amp w).damp = (if t + d < 0 ∨ t + d > 255 then 0 else d) := by
  by_cases hd : w.damp = 0
  · have hr : ramp_amp w = w := by simp [ramp_amp, hd]
    rw [hr, hd]
    rw [hd] at hD
    split_ifs at hD with h1
    · have h2 : t + d < 0 ∨ t + d > 255 := by
        rcases h1 with h1 | h1
        · left; have := hdown h1; omega
        · right; have := hup h1; omega
      rw [if_pos h2]
      refine ⟨?_, rfl⟩
      rcases h1 with h1 | h1
      · have := hdown h1; omega
      · have := hup h1; omega
    · have hz : d = 0 := hD.symm
      subst hz
      have h2 : ¬ (t + 0 < 0 ∨ t + 0 > 255) := by omega
      rw [if_neg h2]
      refine ⟨?_, rfl⟩
      omega
  · have hin : ¬ (t < 0 ∨ t > 255) := by
      intro h1
      rw [if_pos h1] at hD
      exact hd hD
    rw [if_neg hin] at hD
    have hAt : (w.amp : Int) = t := by omega
    obtain ⟨c1, c2, c3, -⟩ := ramp_amp_cases w hd
    rw [hAt, hD] at c1 c2 c3
    by_cases hlo : t + d < 0
    · obtain ⟨e1, e2⟩ := c3 hlo
      rw [e1, e2, if_pos (Or.inl hlo)]
      refine ⟨?_, rfl⟩
      omega
    · by_cases hhi : t + d > 255
      · obtain ⟨e1, e2⟩ := c2 hhi
        rw [e1, e2, if_pos (Or.inr hhi)]
        refine ⟨?_, rfl⟩
        omega
      · obtain ⟨e1, e2⟩ := c1 (by omega) (by omega)
        have h2 : ¬ (t + d < 0 ∨ t + d > 255) := by omega
        rw [e1, e2, if_neg h2]
        refine ⟨?_, rfl⟩
        omega

/-- The voice after `n` ticks of `poly_compute`, for `n` up to 65536: time,
ramp interval and registers, and amplitude and step as the clamped linear
ramp with one step per tick whose time is a multiple of `dscale`. -/
theorem poly_compute_times_ramp (cfg : poly_cfg) (rand : Nat → Nat)
    (pvs : Nat → List poly_voice_t) (voice : poly_voice_t)
    (hf : cfg.poly_freq ≠ 0) (hr : cfg.RAND_MAX / 512 ≠ 0)
    (hv : ∀ k, voice_defined (pvs k).length voice)
    (htime : voice.time = 0) (hamp : voice.amp ≤ 255) (hds : 1 ≤ voice.dscale) :
    ∀ n, n ≤ 65536 → ∃ vn, poly_compute_times cfg rand pvs n voice = some vn ∧
      vn.time = n % 65536 ∧ vn.dscale = voice.dscale ∧ voice_regs vn = voice_regs voice ∧
      (vn.amp : Int) = max 0 (min 255
        ((voice.amp : Int) + voice.damp * ((n + voice.dscale - 1) / voice.dscale : Nat))) ∧
      vn.damp = (if (voice.amp : Int) + voice.damp * ((n + voice.dscale - 1) / voice.dscale : Nat) < 0
          ∨ (voice.amp : Int) + voice.damp * ((n + voice.dscale - 1) / voice.dscale : Nat) > 255
        then 0 else voice.damp) ∧
      ((voice.amp : Int) + voice.damp * ((n + voice.dscale - 1) / voice.dscale : Nat) > 255
        → voice.damp > 0) ∧
      ((voice.amp : Int) + voice.damp * ((n + voice.dscale - 1) / voice.dscale : Nat) < 0
        → voice.damp < 0) := by
  intro n
  induction n with
  | zero =>
    intro _
    have h0 : (0 + voice.dscale - 1) / voice.dscale = 0 := by
      apply Nat.div_eq_of_lt; omega
    refine ⟨voice, rfl, by rw [htime], rfl, rfl, ?_⟩
    rw [h0]
    simp only [Nat.cast_zero, mul_zero, add_zero]
    have hc : ¬ ((voice.amp : Int) < 0 ∨ (voice.amp : Int) > 255) := by omega
    rw [if_neg hc]
    refine ⟨by omega, rfl, by omega, by omega⟩
  | succ n ih =>
    intro hn
    obtain ⟨vn, hvn, htn, hdn, hrn, hA, hD, hup, hdown⟩ := ih (by omega)
    have htn' : vn.time = n := by rw [htn]; omega
    have hvd : voice_defined (pvs n).length vn := by
      have h1 : vn.amod = voice.amod := congrArg Prod.fst hrn
      have h2 : vn.pmod = voice.pmod := congrArg (fun t => t.2.1) hrn
      have h3 : vn.ascale = voice.ascale := congrArg (fun t => t.2.2) hrn
      unfold voice_defined
      rw [h1, h2, h3]
      exact hv n
    obtain ⟨amp, x, -, -, hc⟩ := poly_compute_result cfg (rand n) (pvs n) vn hf hr hvd
    obtain ⟨r1, r2, r3, r4⟩ := voice_ramp_regs cfg vn
    have hceil := ceil_div_succ n voice.dscale hds
    refine ⟨{ voice_ramp cfg vn with
        sample := clip_sample x
        time := to_uint16 ((vn.time : Int) + 1) },
      by simp [poly_compute_times, hvn, hc], ?_, ?_, ?_, ?_⟩
    · simp only [htn']
      unfold to_uint16
      omega
    · simp only [voice_ramp_dscale, hdn]
    · simp only [voice_regs, r1, r2, r3]
      exact hrn
    · simp only
      by_cases hdue : n % voice.dscale = 0
      · have hrd : ramp_due vn = true := (ramp_due_iff vn).mpr ⟨by omega, by rw [htn', hdn]; exact hdue⟩
        have hramp : voice_ramp cfg vn = ramp_amp (ramp_freq cfg vn) := by
          simp [voice_ramp, hrd]
        obtain ⟨fa, fd, -⟩ := ramp_freq_frame cfg vn
        have hstep := ramp_amp_step (ramp_freq cfg vn) _ voice.damp
          (by rw [fa]; exact hA) (by rw [fd]; exact hD) hup hdown
        rw [hceil, if_pos hdue]
        have hring : (voice.amp : Int) + voice.damp * (((n + voice.dscale - 1) / voice.dscale + 1 : Nat) : Int)
            = (voice.amp : Int) + voice.damp * ((n + voice.dscale - 1) / voice.dscale : Nat)
              + voice.damp := by
          push_cast; ring
        rw [hring, hramp]
        refine ⟨hstep.1, hstep.2, ?_, ?_⟩
        · intro h1
          by_cases h2 : (voice.amp : Int)
              + voice.damp * ((n + voice.dscale - 1) / voice.dscale : Nat) > 255
          · exact hup h2
          · omega
        · intro h1
          by_cases h2 : (voice.amp : Int)
              + voice.damp * ((n + voice.dscale - 1) / voice.dscale : Nat) < 0
          · exact hdown h2
          · omega
      · have hrd : ramp_due vn = false := by
          cases hb : ramp_due vn with
          | false => rfl
          | true =>
            have := ((ramp_due_iff vn).mp hb).2
            rw [htn', hdn] at this
            exact absurd this hdue
        have hramp : voice_ramp cfg vn = vn := by simp [voice_ramp, hrd]
        rw [hceil, if_neg hdue, hramp]
        simp only [add_zero]
        exact ⟨hA, hD, hup, hdown⟩

/-- C23. Linear saturating amplitude ramp over many ticks.  For a voice with
`time` 0, amplitude `a` (an 8-bit value), step `d` and ramp interval
`s >= 1`, after `n <= 65536` consecutive calls of `poly_compute` (within
defined behaviour, no event in between) the amplitude is
`a + d * ceil(n / s)` clamped to `[0, 255]`; and when `a + d * ceil(n / s)`
lies outside `[0, 255]` the step has been reset to 0, otherwise it is still
`d`. -/
theorem poly_compute_amp_ramp_linear (cfg : poly_cfg) (rand : Nat → Nat)
    (pvs : Nat → List poly_voice_t) (voice : poly_voice_t) (n : Nat)
    (hf : cfg.poly_freq ≠ 0) (hr : cfg.RAND_MAX / 512 ≠ 0)
    (hv : ∀ k, voice_defined (pvs k).length voice)
    (htime : voice.time = 0) (hamp : voice.amp ≤ 255) (hds : 1 ≤ voice.dscale)
    (hn : n ≤ 65536) :
    ∃ vn, poly_compute_times cfg rand pvs n voice = some vn ∧
      (vn.amp : Int) = max 0 (min 255
        ((voice.amp : Int) + voice.damp * ((n + voice.dscale - 1) / voice.dscale : Nat))) ∧
      vn.damp = (if (voice.amp : Int) + voice.damp * ((n + voice.dscale - 1) / voice.dscale : Nat) < 0
          ∨ (voice.amp : Int) + voice.damp * ((n + voice.dscale - 1) / voice.dscale : Nat) > 255
        then 0 else voice.damp) := by
  obtain ⟨vn, h1, -, -, -, h2, h3, -, -⟩ :=
    poly_compute_times_ramp cfg rand pvs voice hf hr hv htime hamp hds n hn
  exact ⟨vn, h1, h2, h3⟩

theorem poly_compute_amp_ramp_linear_witness :
    ∃ vn, poly_compute_times pctest_cfg (fun _ => 0) (fun _ => []) 10
        { voice_zero with amp := 250, damp := 2, dscale := 3 } = some vn ∧
      (vn.amp : Int) = max 0 (min 255
        (((250 : Nat) : Int) + 2 * ((10 + 3 - 1) / 3 : Nat))) ∧
      vn.damp = (if ((250 : Nat) : Int) + 2 * ((10 + 3 - 1) / 3 : Nat) < 0
          ∨ ((250 : Nat) : Int) + 2 * ((10 + 3 - 1) / 3 : Nat) > 255
        then 0 else 2) :=
  poly_compute_amp_ramp_linear pctest_cfg (fun _ => 0) (fun _ => [])
    { voice_zero with amp := 250, damp := 2, dscale := 3 } 10
    (by decide) (by decide)
    (fun _ => (by decide : voice_defined 0 { voice_zero with amp := 250, damp := 2, dscale := 3 }))
    (by decide) (by decide) (by decide) (by decide)

end Poly
